import Mathlib

/-!
Verification development for the `ollama_llm_bench` benchmark engine.

The definitions below are a shallow embedding of the Python sources:
  * `src/ollama_llm_bench/core/models.py` (data model),
  * `src/ollama_llm_bench/utils/text_utils.py` (judge response parser),
  * `src/ollama_llm_bench/qt_classes/qt_benchmark_execution_task.py`
    (execution engine, the `BenchmarkExecutionTask` revision that matches
    `core/models.py`),
  * `src/ollama_llm_bench/qt_classes/qt_benchmark_flow.py`
    (`QtBenchmarkFlowApi`, the flow coordinator).

Modelling conventions:
  * Python strings are Lean `String`s; scanning functions work on `List Char`
    (`String.data`).  Whitespace means ASCII whitespace.
  * Python numbers (JSON floats) are modelled as exact rationals (`PRat`,
    with `PRat.toRat : PRat → ℚ` giving the value); IEEE-754 rounding is
    idealized away (no claim below depends on rounding).  The special float
    values produced by `float(...)` are modelled by `FloatV`.
  * Python exceptions are values of `PyExc`; a function that may raise
    returns `Except PyExc α`.  Functions that mutate state before raising
    return the mutated state together with `Option PyExc`.
  * Logging (`logger.*`, `_notify`) never affects control flow in the source
    and is not modelled.
-/

namespace OllamaBench

/-- Python exceptions relevant to the embedded code.  Message strings of
exceptions raised by library internals (e.g. `json.JSONDecodeError`) are
abstracted: only the exception class and the fact that the message is carried
matter to the claims. -/
inductive PyExc where
  | valueError (msg : String)
  | typeError (msg : String)
  | jsonDecodeError (msg : String)
  | attributeError (msg : String)
  | runtimeError (msg : String)
  | notFoundError (msg : String)
  deriving Repr, DecidableEq

instance {ε α : Type} [DecidableEq ε] [DecidableEq α] : DecidableEq (Except ε α) := fun x y =>
  match x, y with
  | .error e, .error f => decidable_of_iff (e = f) (by simp)
  | .ok a, .ok b => decidable_of_iff (a = b) (by simp)
  | .error _, .ok _ => .isFalse (by simp)
  | .ok _, .error _ => .isFalse (by simp)

/-- Python `str(e)`: the message carried by the exception. -/
def PyExc.str : PyExc → String
  | .valueError m => m
  | .typeError m => m
  | .jsonDecodeError m => m
  | .attributeError m => m
  | .runtimeError m => m
  | .notFoundError m => m

/-! ## Exact rationals with executable arithmetic

Python floats are idealized as exact rationals (no claim below depends on
IEEE-754 rounding).  They are carried as unnormalized fractions `num / den`
(`den` kept positive) so that every arithmetic operation and comparison the
embedded code performs is plain integer arithmetic, which proofs can
evaluate; `PRat.toRat` maps into `ℚ` for stating values. -/

structure PRat where
  num : Int
  den : Nat := 1
  deriving Repr, DecidableEq

def PRat.ofInt (n : Int) : PRat := ⟨n, 1⟩

def PRat.add (a b : PRat) : PRat := ⟨a.num * b.den + b.num * a.den, a.den * b.den⟩

def PRat.mul (a b : PRat) : PRat := ⟨a.num * b.num, a.den * b.den⟩

/-- Division, keeping the denominator positive (junk value `0` on division
by zero, which no embedded code path performs). -/
def PRat.div (a b : PRat) : PRat :=
  if b.num = 0 then ⟨0, 1⟩
  else if b.num < 0 then ⟨-(a.num * b.den), a.den * b.num.natAbs⟩
  else ⟨a.num * b.den, a.den * b.num.natAbs⟩

def PRat.neg (a : PRat) : PRat := ⟨-a.num, a.den⟩

/-- `10 ^ n` as a `PRat`. -/
def PRat.pow10 (n : Nat) : PRat := ⟨(10 : Int) ^ n, 1⟩

/-- The comparison `a ≤ b` (sound because denominators are positive). -/
def PRat.ble (a b : PRat) : Bool := a.num * b.den ≤ b.num * a.den

/-- The exact value as a `ℚ`. -/
def PRat.toRat (a : PRat) : ℚ := (a.num : ℚ) / (a.den : ℚ)

/-! ## Data model (`core/models.py`) -/

/-- `BenchmarkRunStatus` from `core/models.py`. -/
inductive BenchmarkRunStatus where
  | NOT_COMPLETED
  | COMPLETED
  | FAILED
  deriving Repr, DecidableEq

/-- `BenchmarkResultStatus` from `core/models.py`. -/
inductive BenchmarkResultStatus where
  | NOT_COMPLETED
  | WAITING_FOR_JUDGE
  | COMPLETED
  | FAILED
  deriving Repr, DecidableEq

/-- `BenchmarkRun` from `core/models.py`. -/
structure BenchmarkRun where
  run_id : Nat
  timestamp : String
  judge_model : String
  status : BenchmarkRunStatus
  deriving Repr, DecidableEq

/-- `BenchmarkResult` from `core/models.py`.  `evaluation_score` is a Python
float, modelled as an exact rational. -/
structure BenchmarkResult where
  result_id : Nat
  run_id : Nat
  task_id : String
  model_name : String
  status : BenchmarkResultStatus := .NOT_COMPLETED
  llm_response : Option String := none
  time_taken_ms : Option Nat := none
  tokens_generated : Option Nat := none
  evaluation_score : Option PRat := none
  evaluation_reason : Option String := none
  error_message : Option String := none
  deriving Repr, DecidableEq

/-- `InferenceResponse` from `core/models.py`. -/
structure InferenceResponse where
  llm_response : String := ""
  time_taken_ms : Nat := 0
  tokens_generated : Nat := 0
  has_error : Bool := false
  error_message : Option String := none
  deriving Repr, DecidableEq

/-- Engine stage labels.  Modelled from the spec: the module
`ollama_llm_bench.core.stages_constants` (providing `STAGE_INITIALIZING`,
`STAGE_BENCHMARKING`, `STAGE_JUDGING`, `STAGE_FINISHED`, `STAGE_FAILED`) is
imported by the execution task but is not present under `src/`; the spec's
state machine `INITIALIZING → BENCHMARKING → JUDGING → FINISHED | FAILED`
names the same five labels. -/
inductive Stage where
  | INITIALIZING
  | BENCHMARKING
  | JUDGING
  | FINISHED
  | FAILED
  deriving Repr, DecidableEq

/-- `ReporterStatusMsg` from `core/models.py`.  The wall-clock fields
`start_time_ms` / `end_time_ms` are real time and are not modelled. -/
structure ReporterStatusMsg where
  current_run_id : Nat
  current_stage : Stage
  current_model : String := ""
  current_task : String := ""
  tasks_total : Nat := 0
  tasks_completed : Nat := 0
  deriving Repr, DecidableEq

/-! ## Character-level helpers (`utils/text_utils.py`) -/

/-- ASCII whitespace as recognised by Python's `str.strip` and the regex
class `\s` (for the ASCII inputs relevant here). -/
def pyIsSpace (c : Char) : Bool :=
  c = ' ' || c = '\t' || c = '\n' || c = '\r' || c = '\x0b' || c = '\x0c'

/-- Python `str.strip()` on a character list. -/
def pyStrip (l : List Char) : List Char :=
  ((l.dropWhile pyIsSpace).reverse.dropWhile pyIsSpace).reverse

/-- One pass of `re.sub(r'<(start|end)_of_turn>', '', s)`: leftmost,
non-overlapping removal of the two literal tags.  The `fuel` argument only
bounds recursion (any fuel above the list length is enough and the wrapper
below supplies it); it keeps the definition structurally recursive so that
proofs can evaluate it. -/
def removeTurnTagsF : Nat → List Char → List Char
  | 0, l => l
  | _ + 1, [] => []
  | fuel + 1, c :: rest =>
    if ("<start_of_turn>".data).isPrefixOf (c :: rest) then
      removeTurnTagsF fuel ((c :: rest).drop 15)
    else if ("<end_of_turn>".data).isPrefixOf (c :: rest) then
      removeTurnTagsF fuel ((c :: rest).drop 13)
    else
      c :: removeTurnTagsF fuel rest

def removeTurnTags (l : List Char) : List Char :=
  removeTurnTagsF (l.length + 1) l

/-- Length of the maximal run of `\s` characters at the head. -/
def wsRunLen : List Char → Nat
  | [] => 0
  | c :: rest => if pyIsSpace c then wsRunLen rest + 1 else 0

/-- One pass of `re.sub(r'```json\s*|\s*```', '', s)`.

At each position the regex engine first tries the alternative
`` ```json\s* `` (the literal plus a greedy whitespace run), then
`` \s*``` ``.  For the second alternative the greedy `\s*` must be followed
immediately by the literal `` ``` ``; since backticks are not whitespace this
succeeds exactly when the maximal whitespace run at the position is followed
by `` ``` ``, consuming run-plus-literal. -/
def removeCodeFencesF : Nat → List Char → List Char
  | 0, l => l
  | _ + 1, [] => []
  | fuel + 1, c :: rest =>
    if ("```json".data).isPrefixOf (c :: rest) then
      let afterLit := (c :: rest).drop 7
      removeCodeFencesF fuel (afterLit.drop (wsRunLen afterLit))
    else
      let w := wsRunLen (c :: rest)
      if ("```".data).isPrefixOf ((c :: rest).drop w) then
        removeCodeFencesF fuel ((c :: rest).drop (w + 3))
      else
        c :: removeCodeFencesF fuel rest

def removeCodeFences (l : List Char) : List Char :=
  removeCodeFencesF (l.length + 1) l

/-- `sanitize_json_string` from `utils/text_utils.py`: apply the
`TRIM_PATTERNS` in order (turn tags, then code fences), then strip. -/
def sanitize_json_string (input_string : String) : String :=
  String.mk (pyStrip (removeCodeFences (removeTurnTags input_string.data)))

/-- Index of the first occurrence of `c`, Python `str.find`. -/
def firstIdx (c : Char) : List Char → Option Nat
  | [] => none
  | x :: rest =>
    if x = c then some 0 else (firstIdx c rest).map (· + 1)

/-- Index of the last occurrence of `c`, Python `str.rfind`. -/
def lastIdx (c : Char) (l : List Char) : Option Nat :=
  (firstIdx c l.reverse).map (fun i => l.length - 1 - i)

/-- `extract_json_object` from `utils/text_utils.py`: the slice between the
first `\x7b` and the last `\x7d` inclusive, or the original string when either
brace is missing or they are out of order. -/
def extract_json_object (input_string : String) : String :=
  let l := input_string.data
  match firstIdx '{' l, lastIdx '}' l with
  | some s, some e =>
    if e < s then input_string else String.mk ((l.drop s).take (e + 1 - s))
  | _, _ => input_string

/-! ## JSON values and `json.loads`

Python's `json.loads` is modelled closely enough for every code path of
`parse_judge_response`: objects, arrays, strings with escapes, numbers,
`true`/`false`/`null` and the CPython extensions `NaN`/`Infinity`/
`-Infinity`, with the trailing "Extra data" check.  Numbers are `ℚ`
(Python `int`s are exact; `float` rounding is idealized).  `\uXXXX` escapes
become the corresponding scalar (surrogate-pair recombination is abstracted
to `Char.ofNat`).  Decode-error message texts are abbreviated (CPython also
reports line/column). -/

/-- A parsed JSON value (CPython `json` module's value universe). -/
inductive JsonV where
  | null
  | bool (b : Bool)
  | num (q : PRat)
  | nan
  | inf
  | neginf
  | str (s : String)
  | arr (elems : List JsonV)
  | obj (fields : List (String × JsonV))

/-- JSON structural whitespace (`json.decoder.WHITESPACE`). -/
def jsonWs (c : Char) : Bool :=
  c = ' ' || c = '\t' || c = '\n' || c = '\r'

def skipJsonWs (l : List Char) : List Char := l.dropWhile (fun c => jsonWs c)

def isDigit (c : Char) : Bool := '0' ≤ c ∧ c ≤ '9'

def digitVal (c : Char) : Nat := c.toNat - '0'.toNat

/-- Parse a maximal digit run, returning its value, its length and the rest. -/
def parseDigits : List Char → Nat → Nat → (Nat × Nat × List Char)
  | [], acc, n => (acc, n, [])
  | c :: rest, acc, n =>
    if isDigit c then parseDigits rest (acc * 10 + digitVal c) (n + 1)
    else (acc, n, c :: rest)

def hexVal (c : Char) : Option Nat :=
  if isDigit c then some (digitVal c)
  else if 'a' ≤ c ∧ c ≤ 'f' then some (c.toNat - 'a'.toNat + 10)
  else if 'A' ≤ c ∧ c ≤ 'F' then some (c.toNat - 'A'.toNat + 10)
  else none

/-- Parse the body of a JSON string after the opening quote. -/
def parseJsonStringBody : List Char → List Char → Except PyExc (String × List Char)
  | [], _ => .error (.jsonDecodeError "Unterminated string starting at")
  | c :: rest, acc =>
    if c = '"' then .ok (String.mk acc.reverse, rest)
    else if c = '\\' then
      match rest with
      | [] => .error (.jsonDecodeError "Unterminated string starting at")
      | e :: rest2 =>
        if e = '"' then parseJsonStringBody rest2 ('"' :: acc)
        else if e = '\\' then parseJsonStringBody rest2 ('\\' :: acc)
        else if e = '/' then parseJsonStringBody rest2 ('/' :: acc)
        else if e = 'b' then parseJsonStringBody rest2 ('\x08' :: acc)
        else if e = 'f' then parseJsonStringBody rest2 ('\x0c' :: acc)
        else if e = 'n' then parseJsonStringBody rest2 ('\n' :: acc)
        else if e = 'r' then parseJsonStringBody rest2 ('\r' :: acc)
        else if e = 't' then parseJsonStringBody rest2 ('\t' :: acc)
        else if e = 'u' then
          match rest2 with
          | h1 :: h2 :: h3 :: h4 :: rest3 =>
            match hexVal h1, hexVal h2, hexVal h3, hexVal h4 with
            | some v1, some v2, some v3, some v4 =>
              parseJsonStringBody rest3
                (Char.ofNat (((v1 * 16 + v2) * 16 + v3) * 16 + v4) :: acc)
            | _, _, _, _ => .error (.jsonDecodeError "Invalid \\uXXXX escape")
          | _ => .error (.jsonDecodeError "Invalid \\uXXXX escape")
        else .error (.jsonDecodeError "Invalid \\escape")
    else if c.toNat < 0x20 then
      .error (.jsonDecodeError "Invalid control character")
    else parseJsonStringBody rest (c :: acc)

/-- Parse a JSON number per the CPython `NUMBER_RE` regex
`(-?(?:0|[1-9]\d*))(\.\d+)?([eE][-+]?\d+)?`, already knowing the first
character is a digit or a minus that begins a number. -/
def parseJsonNumber (l : List Char) : Except PyExc (PRat × List Char) :=
  let (neg, l1) := match l with
    | '-' :: rest => (true, rest)
    | _ => (false, l)
  match l1 with
  | [] => .error (.jsonDecodeError "Expecting value")
  | c :: rest =>
    if ¬ isDigit c then .error (.jsonDecodeError "Expecting value")
    else
      -- integer part: `0` alone or a nonzero-led digit run
      let (ipart, l2) :=
        if c = '0' then ((0 : Nat), rest)
        else
          let (v, _, r) := parseDigits rest (digitVal c) 1
          (v, r)
      -- fractional part
      let (q1, l3) : PRat × List Char :=
        match l2 with
        | '.' :: d :: r =>
          if isDigit d then
            let (f, n, r2) := parseDigits r (digitVal d) 1
            ((PRat.ofInt ipart).add ((PRat.ofInt f).div (PRat.pow10 n)), r2)
          else (PRat.ofInt ipart, l2)
        | _ => (PRat.ofInt ipart, l2)
      -- exponent part
      let (q2, l4) : PRat × List Char :=
        match l3 with
        | e :: t =>
          if e = 'e' ∨ e = 'E' then
            match t with
            | '+' :: d :: r =>
              if isDigit d then
                let (ex, _, r2) := parseDigits r (digitVal d) 1
                (q1.mul (PRat.pow10 ex), r2)
              else (q1, l3)
            | '-' :: d :: r =>
              if isDigit d then
                let (ex, _, r2) := parseDigits r (digitVal d) 1
                (q1.div (PRat.pow10 ex), r2)
              else (q1, l3)
            | d :: r =>
              if isDigit d then
                let (ex, _, r2) := parseDigits r (digitVal d) 1
                (q1.mul (PRat.pow10 ex), r2)
              else (q1, l3)
            | _ => (q1, l3)
          else (q1, l3)
        | _ => (q1, l3)
      .ok (if neg then q2.neg else q2, l4)

/-- What the JSON scanner is currently parsing: a full value, the inside of
an object (fields parsed so far in `acc`), or the inside of an array. -/
inductive JMode where
  | value
  | objBody (acc : List (String × JsonV))
  | arrBody (acc : List JsonV)

/-- One recursive scanner covering CPython `scanner.py`'s `_scan_once` /
`JSONObject` / `JSONArray`.  `fuel` only bounds recursion depth (the wrapper
`jsonLoads` supplies more than any input can consume); it keeps the
definition structurally recursive so that proofs can evaluate it. -/
def parseJsonCore : Nat → JMode → List Char → Except PyExc (JsonV × List Char)
  | 0, _, _ => .error (.jsonDecodeError "Expecting value")
  | _ + 1, .value, [] => .error (.jsonDecodeError "Expecting value")
  | fuel + 1, .value, c :: rest =>
    if c = '"' then
      match parseJsonStringBody rest [] with
      | .ok (s, r) => .ok (.str s, r)
      | .error e => .error e
    else if c = '{' then parseJsonCore fuel (.objBody []) (skipJsonWs rest)
    else if c = '[' then parseJsonCore fuel (.arrBody []) (skipJsonWs rest)
    else if ("null".data).isPrefixOf (c :: rest) then .ok (.null, (c :: rest).drop 4)
    else if ("true".data).isPrefixOf (c :: rest) then .ok (.bool true, (c :: rest).drop 4)
    else if ("false".data).isPrefixOf (c :: rest) then .ok (.bool false, (c :: rest).drop 5)
    else if isDigit c ∨ (c = '-' ∧ (rest.head?.elim false isDigit)) then
      match parseJsonNumber (c :: rest) with
      | .ok (q, r) => .ok (.num q, r)
      | .error e => .error e
    else if ("NaN".data).isPrefixOf (c :: rest) then .ok (.nan, (c :: rest).drop 3)
    else if ("Infinity".data).isPrefixOf (c :: rest) then .ok (.inf, (c :: rest).drop 8)
    else if ("-Infinity".data).isPrefixOf (c :: rest) then .ok (.neginf, (c :: rest).drop 9)
    else .error (.jsonDecodeError "Expecting value")
  | _ + 1, .objBody _, [] =>
    .error (.jsonDecodeError "Expecting property name enclosed in double quotes")
  | fuel + 1, .objBody acc, c :: rest =>
    if c = '}' ∧ acc.isEmpty then .ok (.obj [], rest)
    else if c = '"' then
      match parseJsonStringBody rest [] with
      | .error e => .error e
      | .ok (key, r1) =>
        match skipJsonWs r1 with
        | ':' :: r2 =>
          match parseJsonCore fuel .value (skipJsonWs r2) with
          | .error e => .error e
          | .ok (v, r3) =>
            match skipJsonWs r3 with
            | ',' :: r4 => parseJsonCore fuel (.objBody (acc ++ [(key, v)])) (skipJsonWs r4)
            | '}' :: r4 => .ok (.obj (acc ++ [(key, v)]), r4)
            | _ => .error (.jsonDecodeError "Expecting ',' delimiter")
        | _ => .error (.jsonDecodeError "Expecting ':' delimiter")
    else .error (.jsonDecodeError "Expecting property name enclosed in double quotes")
  | _ + 1, .arrBody _, [] => .error (.jsonDecodeError "Expecting value")
  | fuel + 1, .arrBody acc, c :: rest =>
    if c = ']' ∧ acc.isEmpty then .ok (.arr [], rest)
    else
      match parseJsonCore fuel .value (c :: rest) with
      | .error e => .error e
      | .ok (v, r1) =>
        match skipJsonWs r1 with
        | ',' :: r2 => parseJsonCore fuel (.arrBody (acc ++ [v])) (skipJsonWs r2)
        | ']' :: r2 => .ok (.arr (acc ++ [v]), r2)
        | _ => .error (.jsonDecodeError "Expecting ',' delimiter")

/-- `json.loads`: skip leading whitespace, parse one value, require that only
whitespace follows ("Extra data" otherwise). -/
def jsonLoads (s : String) : Except PyExc JsonV :=
  match parseJsonCore (2 * s.data.length + 8) .value (skipJsonWs s.data) with
  | .error e => .error e
  | .ok (v, rest) =>
    if (skipJsonWs rest).isEmpty then .ok v
    else .error (.jsonDecodeError "Extra data")

/-! ## `parse_judge_response` (`utils/text_utils.py`) -/

/-- Python `dict.get(key, default)` where the dict was built by `json.loads`:
with duplicate keys in the source the later binding wins, so lookup takes the
last matching field. -/
def pyDictGet (fields : List (String × JsonV)) (key : String) (dflt : JsonV) : JsonV :=
  match fields.reverse.find? (fun kv => kv.1 = key) with
  | some kv => kv.2
  | none => dflt

/-- The value universe of Python `float(...)`: a finite value or one of the
IEEE specials (finite values idealized as exact rationals). -/
inductive FloatV where
  | fin (q : PRat)
  | nan
  | inf
  | neginf
  deriving Repr, DecidableEq

/-- Python float literal parsing, `float(str)`: optional surrounding
whitespace and sign, then a decimal literal or `inf`/`infinity`/`nan`
(case-insensitive).  Digit-group underscores (PEP 515) are not modelled; no
input exercised here contains them. -/
def pyFloatOfChars (l : List Char) : Except PyExc FloatV :=
  let body := pyStrip l
  let (neg, body1) := match body with
    | '-' :: r => (true, r)
    | '+' :: r => (false, r)
    | _ => (false, body)
  let lower := body1.map Char.toLower
  if lower = "inf".data ∨ lower = "infinity".data then
    .ok (if neg then .neginf else .inf)
  else if lower = "nan".data then .ok .nan
  else
    -- digits [group] with optional fraction and exponent: [0-9]*([.][0-9]*)?([eE][+-]?[0-9]+)?
    let (ipart, ni, l2) := parseDigits body1 0 0
    let (q1, nf, l3) : PRat × Nat × List Char :=
      match l2 with
      | '.' :: r =>
        let (f, n, r2) := parseDigits r 0 0
        ((PRat.ofInt ipart).add ((PRat.ofInt f).div (PRat.pow10 n)), n, r2)
      | _ => (PRat.ofInt ipart, 0, l2)
    if ni = 0 ∧ nf = 0 then
      .error (.valueError ("could not convert string to float: '" ++ String.mk l ++ "'"))
    else
      match l3 with
      | [] => .ok (.fin (if neg then q1.neg else q1))
      | e :: t =>
        if e = 'e' ∨ e = 'E' then
          let (esign, t1) := match t with
            | '-' :: r => (true, r)
            | '+' :: r => (false, r)
            | _ => (false, t)
          let (ex, ne, t2) := parseDigits t1 0 0
          if ne = 0 ∨ ¬ t2.isEmpty then
            .error (.valueError ("could not convert string to float: '" ++ String.mk l ++ "'"))
          else
            let q2 := if esign then q1.div (PRat.pow10 ex) else q1.mul (PRat.pow10 ex)
            .ok (.fin (if neg then q2.neg else q2))
        else
          .error (.valueError ("could not convert string to float: '" ++ String.mk l ++ "'"))

/-- Python `float(x)` applied to a value produced by `json.loads`.
`float(True) = 1.0`, `float(False) = 0.0` (bool is an int subclass);
`None`, lists and dicts raise `TypeError`. -/
def pyFloat : JsonV → Except PyExc FloatV
  | .num q => .ok (.fin q)
  | .nan => .ok .nan
  | .inf => .ok .inf
  | .neginf => .ok .neginf
  | .bool b => .ok (.fin (PRat.ofInt (if b then 1 else 0)))
  | .str s => pyFloatOfChars s.data
  | .null => .error (.typeError "float() argument must be a string or a real number, not 'NoneType'")
  | .arr _ => .error (.typeError "float() argument must be a string or a real number, not 'list'")
  | .obj _ => .error (.typeError "float() argument must be a string or a real number, not 'dict'")

/-- The Python comparison `0 <= grade <= 100` on a float value
(`False` for NaN, hence NaN is rejected by the range check). -/
def floatInRange (v : FloatV) : Bool :=
  match v with
  | .fin q => (PRat.ofInt 0).ble q ∧ q.ble (PRat.ofInt 100)
  | _ => false

/-- `parse_judge_response` from `utils/text_utils.py`.

Returns `.ok (has_error, grade, reason)` when the Python function returns,
and `.error e` when an exception escapes it.  The outer
`except (json.JSONDecodeError, ValueError)` converts those two classes into
the degraded `(True, 0.0, str(e))` return; crucially, when `json.loads`
yields a non-dict, `data.get(...)` raises `AttributeError`, which is caught
by neither clause and propagates to the caller. -/
def parse_judge_response (json_string : String) : Except PyExc (Bool × PRat × String) :=
  let body : Except PyExc (Bool × PRat × String) := do
    let cleaned := sanitize_json_string json_string
    let json_candidate := extract_json_object cleaned
    let data ← jsonLoads json_candidate
    -- `data.get("reason", "")` / `data.get("grade")`: AttributeError on non-dict
    match data with
    | .obj fields =>
      let reason := pyDictGet fields "reason" .null
      let reasonStr ← match reason with
        | .str s => pure s
        | _ => .error (.valueError "Reason must be a string")
      let grade := pyDictGet fields "grade" .null
      if grade matches .null then
        .error (.valueError "Missing required 'grade' field")
      else
        -- inner try: float conversion and range check; TypeError/ValueError
        -- are re-raised as `ValueError(f"Invalid grade format: {e}")`
        let gradeQ : Except PyExc PRat :=
          match pyFloat grade with
          | .error e => .error (.valueError ("Invalid grade format: " ++ e.str))
          | .ok v =>
            if floatInRange v then
              match v with
              | .fin q => .ok q
              | _ => .error (.valueError "Invalid grade format: Grade must be between 0 and 100")
            else
              .error (.valueError "Invalid grade format: Grade must be between 0 and 100")
        match gradeQ with
        | .error e => .error e
        | .ok q => .ok (false, q, reasonStr)
    | _ =>
      .error (.attributeError "'object' returned by json.loads has no attribute 'get'")
  match body with
  | .ok r => .ok r
  | .error (.jsonDecodeError m) => .ok (true, PRat.ofInt 0, m)
  | .error (.valueError m) => .ok (true, PRat.ofInt 0, m)
  | .error e => .error e

/-! ## Result store (`services/sq_lite_data_api.py`, result/run operations)

Only the operations the engine calls are embedded.  The SQL in
`core/constants.py` retrieves rows by `run_id` (optionally with a status
filter) and `UPDATE results SET ... WHERE result_id = ?` replaces every
column of the rows whose key matches.  Storage I/O errors are not modelled:
store operations are total (only `retrieve_benchmark_run` can fail, with the
run missing). -/

structure Store where
  runs : List BenchmarkRun
  results : List BenchmarkResult
  deriving Repr, DecidableEq

/-- `DataApi.retrieve_benchmark_run`: raises when no row matches. -/
def Store.retrieve_benchmark_run (s : Store) (run_id : Nat) : Except PyExc BenchmarkRun :=
  match s.runs.find? (fun r => r.run_id = run_id) with
  | some r => .ok r
  | none => .error (.notFoundError "Benchmark run not found")

/-- `DataApi.retrieve_benchmark_results_for_run`. -/
def Store.resultsForRun (s : Store) (run_id : Nat) : List BenchmarkResult :=
  s.results.filter (fun r => r.run_id = run_id)

/-- `DataApi.retrieve_benchmark_results_for_run_with_status`. -/
def Store.resultsForRunWithStatus (s : Store) (run_id : Nat)
    (status : BenchmarkResultStatus) : List BenchmarkResult :=
  s.results.filter (fun r => r.run_id = run_id ∧ r.status = status)

/-- `DataApi.update_benchmark_result`: full-row replace keyed by
`result_id`. -/
def Store.update_benchmark_result (s : Store) (u : BenchmarkResult) : Store :=
  { s with results := s.results.map (fun r => if r.result_id = u.result_id then u else r) }

/-! ## Execution engine (`qt_classes/qt_benchmark_execution_task.py`)

The engine is `BenchmarkExecutionTask` in `qt_benchmark_execution_task.py`
(the revision whose `ReporterStatusMsg` construction matches
`core/models.py`; `qt_benchmark_flow.py` contains a stale duplicate of the
class).  The collaborators behind `LLMApi` and `PromptBuilderApi` are
parameters (`Env`); the on-line streaming callbacks (`on_llm_response`,
`on_is_stop_signal`) only produce log output / steer the collaborator
internally and are not modelled.  The cooperatively-polled stop flag is
modelled by a schedule `sched : Nat → Bool` giving the value the flag has at
the n-th read (`_should_stop` check); a run with no stop request is the
schedule that is constantly `false`. -/

/-- Collaborator behaviour visible to the engine.  A `.error e` result
models the Python call raising `e`. -/
structure Env where
  /-- `LLMApi.warm_up` -/
  warm_up : String → Except PyExc Bool
  /-- `PromptBuilderApi.build_prompt` (argument: `task_id`) -/
  build_prompt : String → Except PyExc String
  /-- `PromptBuilderApi.build_judge_prompt` (returns `(user, system)`) -/
  build_judge_prompt : BenchmarkResult → Except PyExc (String × String)
  /-- `LLMApi.inference model_name user_prompt system_prompt is_judge_mode` -/
  inference : String → String → String → Bool → Except PyExc InferenceResponse

/-- Externally observable engine events, in emission order. -/
inductive Event where
  | progress (m : ReporterStatusMsg)
  | statusChanged (is_running : Bool)
  | inferenceCall (model : String) (is_judge_mode : Bool)
  deriving Repr, DecidableEq

/-- The mutable fields of `BenchmarkExecutionTask` together with the store
and the trace of emitted events. -/
structure EngineState where
  store : Store
  events : List Event
  total_tasks : Nat
  completed_tasks : Nat
  current_model : String
  current_task_id : String
  stage : Stage
  stop_reads : Nat
  deriving Repr, DecidableEq

def EngineState.addEvent (st : EngineState) (e : Event) : EngineState :=
  { st with events := st.events ++ [e] }

/-- One read of the cooperatively polled stop flag (`is_stopped`, via
`_should_stop`). -/
def EngineState.readStop (sched : Nat → Bool) (st : EngineState) : Bool × EngineState :=
  (sched st.stop_reads, { st with stop_reads := st.stop_reads + 1 })

/-- `_update_progress`: emit a `ReporterStatusMsg` snapshot. -/
def update_progress (run_id : Nat) (st : EngineState) : EngineState :=
  st.addEvent (.progress
    { current_run_id := run_id
      current_stage := st.stage
      current_model := st.current_model
      current_task := st.current_task_id
      tasks_total := st.total_tasks
      tasks_completed := st.completed_tasks })

/-- One step of `_group_tasks_by_model`'s `defaultdict` grouping: append the
task to its model's group, creating the group at the end on first
encounter. -/
def groupInsert (acc : List (String × List BenchmarkResult)) (t : BenchmarkResult) :
    List (String × List BenchmarkResult) :=
  if acc.any (fun g => g.1 = t.model_name) then
    acc.map (fun g => if g.1 = t.model_name then (g.1, g.2 ++ [t]) else g)
  else acc ++ [(t.model_name, [t])]

/-- `_group_tasks_by_model`: `defaultdict` grouping, keys in order of first
encounter, members in input order. -/
def group_tasks_by_model (tasks : List BenchmarkResult) :
    List (String × List BenchmarkResult) :=
  tasks.foldl groupInsert []

/-- `_warmup_model`: `True` only when `warm_up` returns `True`; a `False`
return or a raised exception yields `False` (after log output). -/
def warmup_model (env : Env) (model_name : String) : Bool :=
  match env.warm_up model_name with
  | .ok true => true
  | .ok false => false
  | .error _ => false

/-- `_execute_benchmark_task`: build the prompt, run inference, replace the
row with status `WAITING_FOR_JUDGE` carrying the response fields.  The
returned `Option PyExc` is the exception escaping the Python call, with all
state mutations made before the raise kept. -/
def execute_benchmark_task (env : Env) (model_name : String)
    (task : BenchmarkResult) (st : EngineState) : EngineState × Option PyExc :=
  match env.build_prompt task.task_id with
  | .error e => (st, some e)
  | .ok user_prompt =>
    let st := st.addEvent (.inferenceCall model_name false)
    match env.inference model_name user_prompt "" false with
    | .error e => (st, some e)
    | .ok response =>
      let updated_task : BenchmarkResult :=
        { result_id := task.result_id
          run_id := task.run_id
          task_id := task.task_id
          model_name := task.model_name
          status := .WAITING_FOR_JUDGE
          llm_response := some response.llm_response
          time_taken_ms := some response.time_taken_ms
          tokens_generated := some response.tokens_generated
          evaluation_score := none
          evaluation_reason := none
          error_message := none }
      ({ st with store := st.store.update_benchmark_result updated_task }, none)

/-- `_update_failed_task`: the FAILED row written when a benchmark task's
processing raised `e`. -/
def failed_task_row (task : BenchmarkResult) (e : PyExc) : BenchmarkResult :=
  { result_id := task.result_id
    run_id := task.run_id
    task_id := task.task_id
    model_name := task.model_name
    status := .FAILED
    llm_response := task.llm_response
    time_taken_ms := task.time_taken_ms
    tokens_generated := task.tokens_generated
    evaluation_score := none
    evaluation_reason := none
    error_message := some e.str }

/-- The body of the `for task in tasks_for_model` loop of
`_execute_benchmark_for_tasks` for one task: set the current task, run the
try/except around `_execute_benchmark_task` (a raised exception produces the
FAILED row write), then the `finally` incrementing the counter and emitting
progress. -/
def stage1_process_one (env : Env) (run_id : Nat) (model_name : String)
    (task : BenchmarkResult) (st : EngineState) : EngineState :=
  let st := { st with current_task_id := task.task_id }
  let (st, exc) := execute_benchmark_task env model_name task st
  let st := match exc with
    | none => st
    | some e =>
      { st with store := st.store.update_benchmark_result (failed_task_row task e) }
  update_progress run_id { st with completed_tasks := st.completed_tasks + 1 }

/-- The `for task in tasks_for_model` loop of `_execute_benchmark_for_tasks`
(stop check, then the per-task body).  Returns `false` when the stage must
return `False` (stop requested). -/
def stage1TaskLoop (env : Env) (run_id : Nat) (sched : Nat → Bool)
    (model_name : String) :
    List BenchmarkResult → EngineState → EngineState × Bool
  | [], st => (st, true)
  | task :: rest, st =>
    let (stop, st) := st.readStop sched
    if stop then (st, false)
    else stage1TaskLoop env run_id sched model_name rest
      (stage1_process_one env run_id model_name task st)

/-- The `for model_name, tasks_for_model in model_to_tasks.items()` loop of
`_execute_benchmark_for_tasks`. -/
def stage1GroupLoop (env : Env) (run_id : Nat) (sched : Nat → Bool) :
    List (String × List BenchmarkResult) → EngineState → EngineState × Bool
  | [], st => (st, true)
  | (model_name, tasks_for_model) :: rest, st =>
    let (stop, st) := st.readStop sched
    if stop then (st, false)
    else
      let st := { st with current_model := model_name }
      let st := update_progress run_id st
      if ¬ warmup_model env model_name then (st, false)
      else
        let (st, cont) := stage1TaskLoop env run_id sched model_name tasks_for_model st
        if ¬ cont then (st, false)
        else stage1GroupLoop env run_id sched rest st

/-- `_execute_benchmark_for_tasks` (stage 1, benchmarking).  Returns `False`
when stopped, when warm-up failed, or when there was nothing to do. -/
def execute_benchmark_for_tasks (env : Env) (run_id : Nat) (sched : Nat → Bool)
    (st : EngineState) : EngineState × Bool :=
  let st := { st with stage := .BENCHMARKING }
  let (stop, st) := st.readStop sched
  if stop then (st, false)
  else
    let all_tasks := st.store.resultsForRun run_id
    let tasks_to_run := st.store.resultsForRunWithStatus run_id .NOT_COMPLETED
    let st := { st with
      total_tasks := all_tasks.length
      completed_tasks := all_tasks.length - tasks_to_run.length }
    let st := update_progress run_id st
    if tasks_to_run.isEmpty then (st, false)
    else stage1GroupLoop env run_id sched (group_tasks_by_model tasks_to_run) st

/-- `_judge_task`: build the judge prompt, run inference in judge mode,
parse the response, and replace the row with status `COMPLETED` carrying the
parsed grade and reason.  The status is `COMPLETED` whether or not the
parser reported `has_error` (a parse failure only logs a warning); an
exception escaping the parser (`AttributeError`) or the collaborators is
returned for the caller's `except` block. -/
def judge_task (env : Env) (judge_model : String) (task : BenchmarkResult)
    (st : EngineState) : EngineState × Option PyExc :=
  match env.build_judge_prompt task with
  | .error e => (st, some e)
  | .ok (user_prompt, system_prompt) =>
    let st := st.addEvent (.inferenceCall judge_model true)
    match env.inference judge_model user_prompt system_prompt true with
    | .error e => (st, some e)
    | .ok response =>
      match parse_judge_response response.llm_response with
      | .error e => (st, some e)
      | .ok (_has_error, grade, reason) =>
        let updated_task : BenchmarkResult :=
          { result_id := task.result_id
            run_id := task.run_id
            task_id := task.task_id
            model_name := task.model_name
            status := .COMPLETED
            llm_response := task.llm_response
            time_taken_ms := task.time_taken_ms
            tokens_generated := task.tokens_generated
            evaluation_score := some grade
            evaluation_reason := some reason
            error_message := none }
        ({ st with store := st.store.update_benchmark_result updated_task }, none)

/-- `_update_judge_failed`: the FAILED row written when judging a task
raised `e`. -/
def judge_failed_row (task : BenchmarkResult) (e : PyExc) : BenchmarkResult :=
  { result_id := task.result_id
    run_id := task.run_id
    task_id := task.task_id
    model_name := task.model_name
    status := .FAILED
    llm_response := task.llm_response
    time_taken_ms := task.time_taken_ms
    tokens_generated := task.tokens_generated
    evaluation_score := none
    evaluation_reason := none
    error_message := some ("Evaluation failed: " ++ e.str) }

/-- The body of the `for task in tasks_to_judge` loop of
`_execute_judging_for_tasks` for one task: set the current task, run the
try/except around `_judge_task` (a raised exception produces the FAILED row
write), then the `finally` incrementing the counter and emitting
progress. -/
def stage2_process_one (env : Env) (run_id : Nat) (judge_model : String)
    (task : BenchmarkResult) (st : EngineState) : EngineState :=
  let st := { st with current_task_id := task.task_id }
  let (st, exc) := judge_task env judge_model task st
  let st := match exc with
    | none => st
    | some e =>
      { st with store := st.store.update_benchmark_result (judge_failed_row task e) }
  update_progress run_id { st with completed_tasks := st.completed_tasks + 1 }

/-- The `for task in tasks_to_judge` loop of `_execute_judging_for_tasks`. -/
def stage2TaskLoop (env : Env) (run_id : Nat) (sched : Nat → Bool)
    (judge_model : String) :
    List BenchmarkResult → EngineState → EngineState × Bool
  | [], st => (st, true)
  | task :: rest, st =>
    let (stop, st) := st.readStop sched
    if stop then (st, false)
    else stage2TaskLoop env run_id sched judge_model rest
      (stage2_process_one env run_id judge_model task st)

/-- `_execute_judging_for_tasks` (stage 2, judging).  Returns `False` when
the run record could not be fetched (the stage-level `except`), when warm-up
failed, when stopped, or when there was nothing to judge. -/
def execute_judging_for_tasks (env : Env) (run_id : Nat) (sched : Nat → Bool)
    (st : EngineState) : EngineState × Bool :=
  let st := { st with stage := .JUDGING }
  let all_tasks := st.store.resultsForRun run_id
  let tasks_to_judge := st.store.resultsForRunWithStatus run_id .WAITING_FOR_JUDGE
  let st := { st with
    total_tasks := all_tasks.length
    completed_tasks := all_tasks.length - tasks_to_judge.length }
  match st.store.retrieve_benchmark_run run_id with
  | .error _ => (st, false)
  | .ok run =>
    let judge_model := run.judge_model
    let st := { st with current_model := judge_model }
    let st := update_progress run_id st
    if tasks_to_judge.isEmpty then (st, false)
    else if ¬ warmup_model env judge_model then (st, false)
    else stage2TaskLoop env run_id sched judge_model tasks_to_judge st

/-- `_execute_benchmark`: stage 1, then (only when stage 1 returned `True`)
stage 2, with a progress emission after each successful stage. -/
def execute_benchmark (env : Env) (run_id : Nat) (sched : Nat → Bool)
    (st : EngineState) : EngineState :=
  let (st, ok1) := execute_benchmark_for_tasks env run_id sched st
  if ¬ ok1 then st
  else
    let st := update_progress run_id st
    let (st, ok2) := execute_judging_for_tasks env run_id sched st
    if ¬ ok2 then st
    else update_progress run_id st

/-- The engine state at construction time (`__init__`). -/
def initialEngineState (store : Store) : EngineState :=
  { store := store
    events := []
    total_tasks := 0
    completed_tasks := 0
    current_model := ""
    current_task_id := ""
    stage := .INITIALIZING
    stop_reads := 0 }

/-- `run`: initial progress emission, `status_changed(True)`, the two-stage
body, then the guaranteed `finally` block (clear current task/model, emit
`status_changed(False)` and a final progress snapshot).  No exception can
escape `_execute_benchmark` in this embedding (stage-level errors are
converted to `False` returns), so the `except` arm setting `STAGE_FAILED` is
not reachable and `_stage` becomes `FINISHED`. -/
def engineRun (env : Env) (run_id : Nat) (sched : Nat → Bool)
    (store : Store) : EngineState :=
  let st := initialEngineState store
  let st := update_progress run_id st
  let st := st.addEvent (.statusChanged true)
  let st := execute_benchmark env run_id sched st
  let st := { st with stage := .FINISHED }
  let st := { st with current_task_id := "", current_model := "" }
  let st := st.addEvent (.statusChanged false)
  update_progress run_id st

/-- The `tasks_completed` values of the progress events, in emission
order. -/
def progressCompleted (events : List Event) : List Nat :=
  events.filterMap (fun e =>
    match e with
    | .progress m => some m.tasks_completed
    | _ => none)

/-- The progress snapshots themselves, in emission order. -/
def progressMsgs (events : List Event) : List ReporterStatusMsg :=
  events.filterMap (fun e =>
    match e with
    | .progress m => some m
    | _ => none)

/-! ## Flow coordinator (`qt_classes/qt_benchmark_flow.py`, `QtBenchmarkFlowApi`)

The coordinator holds at most one `BenchmarkExecutionTask` reference.  For
its control surface only the task's identity and its `_stop_requested` flag
matter: the flag is set by `stop()` (a stop request) and by the `finally`
block of `run()` (engine finished), and `is_running` reads it through
`is_stopped()`. -/

/-- The slice of a `BenchmarkExecutionTask` the coordinator observes. -/
structure EngineTask where
  run_id : Nat
  stop_requested : Bool
  deriving Repr, DecidableEq

/-- `QtBenchmarkFlowApi`'s mutable state. -/
structure FlowState where
  current_task : Option EngineTask := none
  current_run_id : Option Nat := none
  deriving Repr, DecidableEq

/-- `QtBenchmarkFlowApi.is_running`:
`self._current_task is not None and not self._current_task.is_stopped()`. -/
def flow_is_running (fs : FlowState) : Bool :=
  match fs.current_task with
  | none => false
  | some t => ¬ t.stop_requested

/-- `QtBenchmarkFlowApi.start_execution`.  The result is the post-call
state, the task submitted to the thread pool (when one was), and the
exception raised (when one was).  The source raises before any assignment in
every failure case, so failures return the input state with no task:

* `is_running()` → `RuntimeError("A benchmark is already running")`;
* the inner `try` fetches the run and checks its status; both a fetch
  failure and a non-`NOT_COMPLETED` status are caught by its
  `except Exception` arm and re-raised as `ValueError(f"Invalid run_id: ...")`;
* otherwise a fresh task (stop flag clear) is constructed, stored
  (`_disconnect_current_task` first resets both fields) and started. -/
def start_execution (store : Store) (fs : FlowState) (run_id : Nat) :
    FlowState × Option EngineTask × Option PyExc :=
  if flow_is_running fs then
    (fs, none, some (.runtimeError "A benchmark is already running"))
  else
    match store.retrieve_benchmark_run run_id with
    | .error _ => (fs, none, some (.valueError "Invalid run_id"))
    | .ok run =>
      if run.status ≠ BenchmarkRunStatus.NOT_COMPLETED then
        (fs, none, some (.valueError "Invalid run_id"))
      else
        let task : EngineTask := { run_id := run_id, stop_requested := false }
        ({ current_task := some task, current_run_id := some run_id }, some task, none)

/-- `QtBenchmarkFlowApi.stop_execution`: `RuntimeError` when nothing is
running, otherwise set the active task's stop flag (without blocking). -/
def stop_execution (fs : FlowState) : FlowState × Option PyExc :=
  if ¬ flow_is_running fs then
    (fs, some (.runtimeError "No benchmark is currently running"))
  else
    match fs.current_task with
    | none => (fs, none)
    | some t =>
      ({ fs with current_task := some { t with stop_requested := true } }, none)

/-- The engine's `run()` `finally` block as the coordinator observes it:
`self._stop_requested = True` on the held task (the stop-completion signal;
`qt_benchmark_execution_task.py`, `run`). -/
def engine_finalize (fs : FlowState) : FlowState :=
  match fs.current_task with
  | none => fs
  | some t => { fs with current_task := some { t with stop_requested := true } }

/-- How a stored row may relate to its value after an engine invocation:
either untouched, or moved strictly forward — a NOT_COMPLETED row to
WAITING_FOR_JUDGE / FAILED (benchmarking) or further to COMPLETED / FAILED
(judged in the same invocation), a WAITING_FOR_JUDGE row to COMPLETED /
FAILED (judging).  In particular a COMPLETED or FAILED row is never
updated. -/
def resultEvolves (r r' : BenchmarkResult) : Prop :=
  r'.result_id = r.result_id ∧
  (r' = r ∨
    (r.status = .NOT_COMPLETED ∧
      (r'.status = .WAITING_FOR_JUDGE ∨ r'.status = .COMPLETED ∨ r'.status = .FAILED)) ∨
    (r.status = .WAITING_FOR_JUDGE ∧
      (r'.status = .COMPLETED ∨ r'.status = .FAILED)))

/-- `writesWithin tasks stats before after`: every store position is either
untouched, or its row (which carried the key of one of `tasks`) was replaced
by a row with the same key whose status is among `stats`.  This is the shape
of the store change a stage loop produces: stage 1 writes only
WAITING_FOR_JUDGE / FAILED rows keyed by its pending tasks, stage 2 only
COMPLETED / FAILED rows keyed by its to-judge tasks. -/
def writesWithin (tasks : List BenchmarkResult) (stats : List BenchmarkResultStatus)
    (before after : Store) : Prop :=
  ∀ i : Nat,
    after.results[i]? = before.results[i]? ∨
    ∃ r, before.results[i]? = some r ∧ (∃ t ∈ tasks, t.result_id = r.result_id) ∧
      ∃ u, after.results[i]? = some u ∧ u.result_id = r.result_id ∧ u.status ∈ stats

/-- The model groups the benchmarking stage iterates over for a given
store: the pending rows grouped by model name. -/
def engineGroups (store : Store) (run_id : Nat) : List (String × List BenchmarkResult) :=
  group_tasks_by_model (store.resultsForRunWithStatus run_id .NOT_COMPLETED)

/-- All members of a group list, in iteration order. -/
def joinedTasks (gs : List (String × List BenchmarkResult)) : List BenchmarkResult :=
  (gs.map Prod.snd).flatten

/-! ## Concrete fixtures used by counterexamples and witnesses -/

/-- The constantly-false stop schedule: a run during which stop is never
requested. -/
def noStop : Nat → Bool := fun _ => false

def demoRun : BenchmarkRun :=
  { run_id := 7, timestamp := "2024-01-01T00:00:00", judge_model := "judge-model",
    status := .NOT_COMPLETED }

def demoRowNC : BenchmarkResult :=
  { result_id := 1, run_id := 7, task_id := "t1", model_name := "model-a" }

def demoRowW : BenchmarkResult :=
  { demoRowNC with
    status := .WAITING_FOR_JUDGE, llm_response := some "resp",
    time_taken_ms := some 5, tokens_generated := some 3 }

/-- One run with a single pending (NOT_COMPLETED) result. -/
def demoStoreNC : Store := { runs := [demoRun], results := [demoRowNC] }

/-- One run with a single result already waiting for the judge. -/
def demoStoreW : Store := { runs := [demoRun], results := [demoRowW] }

def goodJudgeJson : String := "\x7b\"reason\":\"ok\",\"grade\":1\x7d"

/-- Collaborators that always succeed; the judge model answers with
well-formed JSON. -/
def demoEnv : Env :=
  { warm_up := fun _ => .ok true
    build_prompt := fun _ => .ok "prompt"
    build_judge_prompt := fun _ => .ok ("judge-user", "judge-system")
    inference := fun _ _ _ is_judge_mode =>
      if is_judge_mode then .ok { llm_response := goodJudgeJson }
      else .ok { llm_response := "resp", time_taken_ms := 5, tokens_generated := 3 } }

/-- Same collaborators, but the judge model answers with non-JSON text. -/
def demoEnvBadJudge : Env :=
  { demoEnv with
    inference := fun _ _ _ is_judge_mode =>
      if is_judge_mode then .ok { llm_response := "not json" }
      else .ok { llm_response := "resp", time_taken_ms := 5, tokens_generated := 3 } }

/-- Collaborators whose warm-up call reports failure (`warm_up` returns
`False`). -/
def demoEnvWarmFail : Env :=
  { demoEnv with warm_up := fun _ => .ok false }

/-- The soft-failure `InferenceResponse` that `OllamaApi.inference` returns
on an internal exception: `has_error=true`, empty response, zero counts. -/
def softFailResponse : InferenceResponse :=
  { llm_response := "", time_taken_ms := 0, tokens_generated := 0,
    has_error := true, error_message := some "boom" }

/-- Collaborators whose inference reports failure through the returned
structure (never raising). -/
def demoEnvSoftFail : Env :=
  { demoEnv with inference := fun _ _ _ _ => .ok softFailResponse }

/-! ## Theorems -/

/-- C5: the judge response parser's concrete behaviour on the four
spec-mandated inputs: plain well-formed JSON parses to
`(false, 0.85, "ok")`; the same JSON inside markdown ```json fences has the
fences stripped and parses to `(false, 1.0, "x")`; the non-JSON input
`"not json"` and the input missing the `grade` field both return
`(true, 0.0, <diagnostic>)`. -/
theorem judge_parser_concrete_cases :
    (∃ g, parse_judge_response "\x7b\"reason\":\"ok\",\"grade\":0.85\x7d" =
        .ok (false, g, "ok") ∧ g.toRat = 0.85) ∧
    (∃ g, parse_judge_response "```json\n\x7b\"reason\":\"x\",\"grade\":1.0\x7d\n```" =
        .ok (false, g, "x") ∧ g.toRat = 1.0) ∧
    (∃ m, parse_judge_response "not json" = .ok (true, PRat.ofInt 0, m) ∧ m ≠ "") ∧
    (∃ m, parse_judge_response "\x7b\"reason\":\"x\"\x7d" = .ok (true, PRat.ofInt 0, m) ∧
      m ≠ "") := by
  refine ⟨⟨PRat.mk 85 100, by decide, ?_⟩, ⟨PRat.mk 10 10, by decide, ?_⟩,
    ⟨"Expecting value", by decide, by decide⟩,
    ⟨"Missing required 'grade' field", by decide, by decide⟩⟩
  · show ((85 : Int) : ℚ) / ((100 : Nat) : ℚ) = 0.85
    norm_num
  · show ((10 : Int) : ℚ) / ((10 : Nat) : ℚ) = 1.0
    norm_num

/-- C6: evaluation of the parser at the failing input `"42"`: `json.loads`
returns the integer `42`, on which `data.get("reason", "")` raises
`AttributeError`, which neither `except` clause catches — contradicting the
claim that the parser never raises. -/
theorem judge_parser_nonobject_raises :
    parse_judge_response "42" =
      .error (.attributeError "'object' returned by json.loads has no attribute 'get'") := by
  decide

/-- C8: `start_execution` fails with `RuntimeError` while an engine is
active, and with `ValueError` when the run cannot be fetched or its status
is not NOT_COMPLETED; in each failure case the returned state is the input
state (no field assigned) and no engine task is constructed or started. -/
theorem start_execution_failure_cases (store : Store) (fs : FlowState) (run_id : Nat) :
    (flow_is_running fs = true →
      start_execution store fs run_id =
        (fs, none, some (.runtimeError "A benchmark is already running"))) ∧
    (flow_is_running fs = false →
      (store.retrieve_benchmark_run run_id).isOk = false →
      start_execution store fs run_id = (fs, none, some (.valueError "Invalid run_id"))) ∧
    (∀ run, flow_is_running fs = false →
      store.retrieve_benchmark_run run_id = .ok run →
      run.status ≠ BenchmarkRunStatus.NOT_COMPLETED →
      start_execution store fs run_id = (fs, none, some (.valueError "Invalid run_id"))) := by
  refine ⟨fun h => ?_, fun h1 h2 => ?_, fun run h1 h2 h3 => ?_⟩
  · simp [start_execution, h]
  · simp only [start_execution, h1, Bool.false_eq_true, if_false]
    cases hf : store.retrieve_benchmark_run run_id with
    | error e => simp
    | ok run => rw [hf] at h2; simp [Except.isOk, Except.toBool] at h2
  · simp [start_execution, h1, h2, h3]

theorem start_execution_failure_cases_witness :
    flow_is_running { current_task := some { run_id := 7, stop_requested := false } } = true ∧
    start_execution demoStoreNC
        { current_task := some { run_id := 7, stop_requested := false } } 7 =
      ({ current_task := some { run_id := 7, stop_requested := false } }, none,
        some (.runtimeError "A benchmark is already running")) :=
  ⟨by decide,
    (start_execution_failure_cases demoStoreNC
      { current_task := some { run_id := 7, stop_requested := false } } 7).1 (by decide)⟩

/-- C9: `is_running()` is true exactly when a task reference is held whose
stop flag is clear; a successful `start_execution` makes it true, and it
becomes false when the stop flag is set — by a stop request
(`stop_execution`) or by the engine's `finally` block signalling that it has
stopped (`engine_finalize`). -/
theorem is_running_spec (fs : FlowState) :
    (flow_is_running fs = true ↔
      ∃ t, fs.current_task = some t ∧ t.stop_requested = false) ∧
    (∀ store run_id fs' task,
      start_execution store fs run_id = (fs', some task, none) →
      flow_is_running fs' = true) ∧
    ((stop_execution fs).2 = none → flow_is_running (stop_execution fs).1 = false) ∧
    flow_is_running (engine_finalize fs) = false := by
  refine ⟨?_, fun store run_id fs' task h => ?_, fun h => ?_, ?_⟩
  · cases hc : fs.current_task with
    | none => simp [flow_is_running, hc]
    | some t =>
      cases ht : t.stop_requested <;> simp_all [flow_is_running, hc]
  · unfold start_execution at h
    split at h
    · simp at h
    · split at h
      · simp at h
      · split at h
        · simp at h
        · simp only [Prod.mk.injEq] at h
          obtain ⟨h1, _, _⟩ := h
          subst h1
          simp [flow_is_running]
  · cases hc : fs.current_task with
    | none => simp [stop_execution, flow_is_running, hc] at h
    | some t =>
      cases ht : t.stop_requested with
      | false => simp [stop_execution, flow_is_running, hc, ht]
      | true => simp [stop_execution, flow_is_running, hc, ht] at h
  · unfold engine_finalize
    cases hc : fs.current_task with
    | none => simp [flow_is_running, hc]
    | some t => simp [flow_is_running]

theorem is_running_spec_witness :
    flow_is_running { current_task := some { run_id := 7, stop_requested := false } } = true ∧
    flow_is_running
      (engine_finalize { current_task := some { run_id := 7, stop_requested := false } }) =
      false :=
  ⟨((is_running_spec
      { current_task := some { run_id := 7, stop_requested := false } }).1).mpr
      ⟨{ run_id := 7, stop_requested := false }, rfl, rfl⟩,
    (is_running_spec { current_task := some { run_id := 7, stop_requested := false } }).2.2.2⟩

/-- C10: `_execute_benchmark_task` never inspects the returned
`InferenceResponse.has_error` flag.  When inference returns (without
raising) the soft-failure structure `has_error=true` with empty response and
zero counts, the row is still replaced with status WAITING_FOR_JUDGE, the
empty response, zero counts, and `error_message=None`; and the per-task
handler's FAILED branch fires exactly when prompt construction or the
inference call raises. -/
theorem benchmark_task_ignores_has_error (env : Env) (model_name : String)
    (task : BenchmarkResult) (st : EngineState) :
    (∀ p msg, env.build_prompt task.task_id = .ok p →
      env.inference model_name p "" false =
        .ok { llm_response := "", time_taken_ms := 0, tokens_generated := 0,
              has_error := true, error_message := some msg } →
      execute_benchmark_task env model_name task st =
        ({ st with
            events := st.events ++ [.inferenceCall model_name false]
            store := st.store.update_benchmark_result
              { result_id := task.result_id
                run_id := task.run_id
                task_id := task.task_id
                model_name := task.model_name
                status := .WAITING_FOR_JUDGE
                llm_response := some ""
                time_taken_ms := some 0
                tokens_generated := some 0
                evaluation_score := none
                evaluation_reason := none
                error_message := none } }, none)) ∧
    ((execute_benchmark_task env model_name task st).2.isSome = true ↔
      (env.build_prompt task.task_id).isOk = false ∨
      ∃ p, env.build_prompt task.task_id = .ok p ∧
        (env.inference model_name p "" false).isOk = false) := by
  constructor
  · intro p msg hp hi
    simp [execute_benchmark_task, hp, hi, EngineState.addEvent]
  · cases hp : env.build_prompt task.task_id with
    | error e =>
      simp [execute_benchmark_task, hp, Except.isOk, Except.toBool]
    | ok p =>
      cases hi : env.inference model_name p "" false with
      | error e =>
        constructor
        · intro _
          exact Or.inr ⟨p, rfl, by rw [hi]; rfl⟩
        · intro _
          simp [execute_benchmark_task, hp, hi]
      | ok resp =>
        simp [execute_benchmark_task, hp, hi, Except.isOk, Except.toBool]

theorem benchmark_task_ignores_has_error_witness :
    (demoEnvSoftFail.build_prompt demoRowNC.task_id = .ok "prompt") ∧
    execute_benchmark_task demoEnvSoftFail "model-a" demoRowNC
        (initialEngineState demoStoreNC) =
      ({ initialEngineState demoStoreNC with
          events := [.inferenceCall "model-a" false]
          store := demoStoreNC.update_benchmark_result
            { result_id := 1, run_id := 7, task_id := "t1", model_name := "model-a"
              status := .WAITING_FOR_JUDGE
              llm_response := some ""
              time_taken_ms := some 0
              tokens_generated := some 0
              evaluation_score := none
              evaluation_reason := none
              error_message := none } }, none) := by
  refine ⟨by decide, ?_⟩
  have h := (benchmark_task_ignores_has_error demoEnvSoftFail
    "model-a" demoRowNC (initialEngineState demoStoreNC)).1 "prompt" "boom"
    (by decide) (by decide)
  rw [h]
  rfl

/-- C1 (counterexample): a one-task run executed end to end where the judge
model answers `"not json"`.  The parser reports a failure
(`has_error=true`), yet the engine replaces the row with status COMPLETED
(score 0, the diagnostic as the reason, no error message) — not FAILED with
an error message, as the claim states. -/
theorem judging_parse_failure_cex :
    parse_judge_response "not json" = .ok (true, PRat.ofInt 0, "Expecting value") ∧
    (engineRun demoEnvBadJudge 7 noStop demoStoreNC).store.results =
      [{ demoRowW with
          status := .COMPLETED
          evaluation_score := some (PRat.ofInt 0)
          evaluation_reason := some "Expecting value"
          error_message := none }] ∧
    BenchmarkResultStatus.COMPLETED ≠ BenchmarkResultStatus.FAILED := by
  refine ⟨by decide, by decide, by decide⟩

/-- C1 (amended): when the judge inference returns normally and the parser
returns `has_error=true` (without raising), `_judge_task` still replaces the
row with status COMPLETED, storing the parser's grade and reason and
`error_message=None`; no exception reaches the caller, so the FAILED branch
(which requires an exception) is not taken. -/
theorem judging_parse_failure_still_completed (env : Env) (judge_model : String)
    (task : BenchmarkResult) (st : EngineState) (u s_p : String)
    (resp : InferenceResponse) (g : PRat) (r : String) :
    env.build_judge_prompt task = .ok (u, s_p) →
    env.inference judge_model u s_p true = .ok resp →
    parse_judge_response resp.llm_response = .ok (true, g, r) →
    judge_task env judge_model task st =
      ({ st with
          events := st.events ++ [.inferenceCall judge_model true]
          store := st.store.update_benchmark_result
            { result_id := task.result_id
              run_id := task.run_id
              task_id := task.task_id
              model_name := task.model_name
              status := .COMPLETED
              llm_response := task.llm_response
              time_taken_ms := task.time_taken_ms
              tokens_generated := task.tokens_generated
              evaluation_score := some g
              evaluation_reason := some r
              error_message := none } }, none) := by
  intro hb hi hp
  simp [judge_task, hb, hi, hp, EngineState.addEvent]

theorem judging_parse_failure_still_completed_witness :
    demoEnvBadJudge.build_judge_prompt demoRowW = .ok ("judge-user", "judge-system") ∧
    judge_task demoEnvBadJudge "judge-model" demoRowW (initialEngineState demoStoreW) =
      ({ initialEngineState demoStoreW with
          events := [.inferenceCall "judge-model" true]
          store := demoStoreW.update_benchmark_result
            { result_id := 1, run_id := 7, task_id := "t1", model_name := "model-a"
              status := .COMPLETED
              llm_response := some "resp"
              time_taken_ms := some 5
              tokens_generated := some 3
              evaluation_score := some (PRat.ofInt 0)
              evaluation_reason := some "Expecting value"
              error_message := none } }, none) := by
  constructor
  · decide
  · have h := judging_parse_failure_still_completed demoEnvBadJudge "judge-model"
      demoRowW (initialEngineState demoStoreW) "judge-user" "judge-system"
      { llm_response := "not json" } (PRat.ofInt 0) "Expecting value"
      (by decide) (by decide) (by decide)
    rw [h]
    rfl

/-- C2: evaluation at the failing input — a run whose only result already
has status WAITING_FOR_JUDGE (so the benchmarking stage finds no
NOT_COMPLETED rows), with collaborators that would judge it successfully.
`_execute_benchmark_for_tasks` returns `False` ("nothing to do") and
`_execute_benchmark` then returns immediately, so the judging stage never
runs: the store is unchanged (the row stays WAITING_FOR_JUDGE) and no
inference call of any kind is made — contradicting the claim that the
engine proceeds to the judging stage. -/
theorem empty_benchmark_stage_skips_judging :
    (engineRun demoEnv 7 noStop demoStoreW).store = demoStoreW ∧
    ((engineRun demoEnv 7 noStop demoStoreW).events.all fun e =>
      match e with
      | .inferenceCall _ _ => false
      | _ => true) = true ∧
    demoStoreW.resultsForRunWithStatus 7 .WAITING_FOR_JUDGE = [demoRowW] := by
  refine ⟨by decide, by decide, by decide⟩

/-- C3 (counterexample): a one-task run executed to completion with no stop
request.  The emitted `tasks_completed` sequence is `[0,0,0,1,1,0,1,1,1]`:
at the start of the judging stage the counter is re-based
(`completed = total - pending`), dropping from 1 back to 0, so the sequence
over the whole run is not non-decreasing. -/
theorem progress_not_monotone_cex :
    progressCompleted (engineRun demoEnv 7 noStop demoStoreNC).events =
      [0, 0, 0, 1, 1, 0, 1, 1, 1] ∧
    ¬ List.Sorted (· ≤ ·)
        (progressCompleted (engineRun demoEnv 7 noStop demoStoreNC).events) := by
  refine ⟨by decide, ?_⟩
  intro h
  rw [show progressCompleted (engineRun demoEnv 7 noStop demoStoreNC).events =
    [0, 0, 0, 1, 1, 0, 1, 1, 1] from by decide] at h
  simp [List.Sorted] at h

/-! ### Store lemmas -/

theorem update_results_get? (s : Store) (u : BenchmarkResult) (i : Nat) :
    (s.update_benchmark_result u).results[i]? =
      (s.results[i]?).map (fun r => if r.result_id = u.result_id then u else r) := by
  simp [Store.update_benchmark_result]

/-- A single full-row replace either leaves position `i` unchanged or
replaces a row carrying the written row's key. -/
theorem update_get?_cases (s : Store) (u : BenchmarkResult) (i : Nat) :
    (s.update_benchmark_result u).results[i]? = s.results[i]? ∨
    ∃ r, s.results[i]? = some r ∧ r.result_id = u.result_id ∧
      (s.update_benchmark_result u).results[i]? = some u := by
  rw [update_results_get?]
  cases h : s.results[i]? with
  | none => exact Or.inl rfl
  | some r =>
    by_cases hid : r.result_id = u.result_id
    · exact Or.inr ⟨r, rfl, hid, by simp [hid]⟩
    · exact Or.inl (by simp [hid])

theorem update_length (s : Store) (u : BenchmarkResult) :
    (s.update_benchmark_result u).results.length = s.results.length := by
  simp [Store.update_benchmark_result]

theorem update_runs (s : Store) (u : BenchmarkResult) :
    (s.update_benchmark_result u).runs = s.runs := rfl

/-! ### Grouping lemmas -/

theorem mem_joinedTasks {t : BenchmarkResult} {gs : List (String × List BenchmarkResult)} :
    t ∈ joinedTasks gs ↔ ∃ g ∈ gs, t ∈ g.2 := by
  simp only [joinedTasks, List.mem_flatten, List.mem_map]
  exact ⟨fun ⟨l, ⟨g, hg, hl⟩, ht⟩ => ⟨g, hg, hl ▸ ht⟩, fun ⟨g, hg, ht⟩ => ⟨g.2, ⟨g, hg, rfl⟩, ht⟩⟩

theorem groupInsert_mem (acc : List (String × List BenchmarkResult))
    (t t' : BenchmarkResult) (h : t' ∈ joinedTasks (groupInsert acc t)) :
    t' ∈ joinedTasks acc ∨ t' = t := by
  unfold groupInsert at h
  split at h
  · rw [mem_joinedTasks] at h
    obtain ⟨g', hg', ht'⟩ := h
    rw [List.mem_map] at hg'
    obtain ⟨g, hg, hfg⟩ := hg'
    by_cases hk : g.1 = t.model_name
    · rw [if_pos hk] at hfg
      subst hfg
      simp only [List.mem_append, List.mem_singleton] at ht'
      rcases ht' with h1 | h1
      · exact Or.inl (mem_joinedTasks.mpr ⟨g, hg, h1⟩)
      · exact Or.inr h1
    · rw [if_neg hk] at hfg
      subst hfg
      exact Or.inl (mem_joinedTasks.mpr ⟨g, hg, ht'⟩)
  · rw [mem_joinedTasks] at h
    obtain ⟨g, hg, ht'⟩ := h
    simp only [List.mem_append, List.mem_singleton] at hg
    rcases hg with h1 | h1
    · exact Or.inl (mem_joinedTasks.mpr ⟨g, h1, ht'⟩)
    · subst h1
      simp only [List.mem_singleton] at ht'
      exact Or.inr ht'

theorem groupInsert_consistent (acc : List (String × List BenchmarkResult))
    (t : BenchmarkResult)
    (h : ∀ g ∈ acc, ∀ x ∈ g.2, x.model_name = g.1) :
    ∀ g ∈ groupInsert acc t, ∀ x ∈ g.2, x.model_name = g.1 := by
  intro g hg x hx
  unfold groupInsert at hg
  split at hg
  · rw [List.mem_map] at hg
    obtain ⟨g0, hg0, hfg⟩ := hg
    by_cases hk : g0.1 = t.model_name
    · rw [if_pos hk] at hfg
      subst hfg
      simp only [List.mem_append, List.mem_singleton] at hx
      rcases hx with h1 | h1
      · exact h g0 hg0 x h1
      · subst h1; exact hk.symm
    · rw [if_neg hk] at hfg
      subst hfg
      exact h g0 hg0 x hx
  · simp only [List.mem_append, List.mem_singleton] at hg
    rcases hg with h1 | h1
    · exact h g h1 x hx
    · subst h1
      simp only [List.mem_singleton] at hx
      subst hx; rfl

/-- Appending a task to groups none of which carry its model leaves the
group list unchanged. -/
theorem map_groupAppend_id (rest : List (String × List BenchmarkResult))
    (t : BenchmarkResult) (h : ∀ g ∈ rest, g.1 ≠ t.model_name) :
    rest.map (fun g => if g.1 = t.model_name then (g.1, g.2 ++ [t]) else g) = rest := by
  induction rest with
  | nil => rfl
  | cons g rest ih =>
    simp only [List.map_cons]
    rw [if_neg (h g (List.mem_cons_self g rest)),
      ih (fun g' hg' => h g' (List.mem_cons_of_mem _ hg'))]

theorem groupInsert_keys_nodup (acc : List (String × List BenchmarkResult))
    (t : BenchmarkResult) (h : (acc.map Prod.fst).Nodup) :
    ((groupInsert acc t).map Prod.fst).Nodup := by
  unfold groupInsert
  split
  · have hkeys : (acc.map (fun g => if g.1 = t.model_name then (g.1, g.2 ++ [t]) else g)).map
        Prod.fst = acc.map Prod.fst := by
      rw [List.map_map]
      apply List.map_congr_left
      intro g _
      by_cases hk : g.1 = t.model_name <;> simp [hk]
    rw [hkeys]; exact h
  · rename_i hany
    simp only [List.any_eq_true, decide_eq_true_eq, not_exists] at hany
    push_neg at hany
    rw [List.map_append]
    rw [List.nodup_append]
    refine ⟨h, by simp, ?_⟩
    intro a ha hb
    simp only [List.map_cons, List.map_nil, List.mem_singleton] at hb
    subst hb
    rw [List.mem_map] at ha
    obtain ⟨g, hg, hgk⟩ := ha
    exact hany g hg hgk

theorem groupInsert_joinLen (acc : List (String × List BenchmarkResult))
    (t : BenchmarkResult) (hnd : (acc.map Prod.fst).Nodup) :
    (joinedTasks (groupInsert acc t)).length = (joinedTasks acc).length + 1 := by
  unfold groupInsert
  split
  · rename_i hany
    simp only [List.any_eq_true, decide_eq_true_eq] at hany
    induction acc with
    | nil => simp at hany
    | cons g rest ih =>
      by_cases hk : g.1 = t.model_name
      · -- the head group receives the task; no other group carries the key
        have hrest : ∀ g' ∈ rest, g'.1 ≠ t.model_name := by
          intro g' hg' hk'
          rw [List.map_cons, List.nodup_cons] at hnd
          exact hnd.1 (hk ▸ hk' ▸ List.mem_map_of_mem Prod.fst hg')
        simp only [List.map_cons, if_pos hk, map_groupAppend_id rest t hrest]
        simp [joinedTasks]
        omega
      · -- the head group is untouched; recurse into the rest
        have hany' : ∃ g' ∈ rest, g'.1 = t.model_name := by
          obtain ⟨g', hg', hk'⟩ := hany
          rcases List.mem_cons.mp hg' with h1 | h1
          · exact absurd (h1 ▸ hk') hk
          · exact ⟨g', h1, hk'⟩
        have hnd' : (rest.map Prod.fst).Nodup := by
          rw [List.map_cons, List.nodup_cons] at hnd
          exact hnd.2
        have := ih hnd' hany'
        simp only [List.map_cons, if_neg hk] at this ⊢
        simp only [joinedTasks, List.map_cons, List.flatten_cons, List.length_append] at this ⊢
        omega
  · simp [joinedTasks]

theorem foldl_groupInsert_mem :
    ∀ (l : List BenchmarkResult) (acc : List (String × List BenchmarkResult))
      (t : BenchmarkResult),
      t ∈ joinedTasks (l.foldl groupInsert acc) → t ∈ joinedTasks acc ∨ t ∈ l := by
  intro l
  induction l with
  | nil => intro acc t h; exact Or.inl h
  | cons x xs ih =>
    intro acc t h
    rw [List.foldl_cons] at h
    rcases ih (groupInsert acc x) t h with h' | h'
    · rcases groupInsert_mem acc x t h' with h'' | h''
      · exact Or.inl h''
      · exact Or.inr (by rw [h'']; exact List.mem_cons_self x xs)
    · exact Or.inr (List.mem_cons_of_mem x h')

theorem foldl_groupInsert_consistent :
    ∀ (l : List BenchmarkResult) (acc : List (String × List BenchmarkResult)),
      (∀ g ∈ acc, ∀ x ∈ g.2, x.model_name = g.1) →
      ∀ g ∈ l.foldl groupInsert acc, ∀ x ∈ g.2, x.model_name = g.1 := by
  intro l
  induction l with
  | nil => intro acc h; exact h
  | cons x xs ih =>
    intro acc h
    rw [List.foldl_cons]
    exact ih (groupInsert acc x) (groupInsert_consistent acc x h)

theorem foldl_groupInsert_keys_nodup :
    ∀ (l : List BenchmarkResult) (acc : List (String × List BenchmarkResult)),
      (acc.map Prod.fst).Nodup → ((l.foldl groupInsert acc).map Prod.fst).Nodup := by
  intro l
  induction l with
  | nil => intro acc h; exact h
  | cons x xs ih =>
    intro acc h
    rw [List.foldl_cons]
    exact ih (groupInsert acc x) (groupInsert_keys_nodup acc x h)

theorem foldl_groupInsert_joinLen :
    ∀ (l : List BenchmarkResult) (acc : List (String × List BenchmarkResult)),
      (acc.map Prod.fst).Nodup →
      (joinedTasks (l.foldl groupInsert acc)).length = (joinedTasks acc).length + l.length := by
  intro l
  induction l with
  | nil => intro acc _; simp
  | cons x xs ih =>
    intro acc h
    rw [List.foldl_cons, ih (groupInsert acc x) (groupInsert_keys_nodup acc x h),
      groupInsert_joinLen acc x h]
    simp only [List.length_cons]
    omega

/-- Every member of a group produced by `_group_tasks_by_model` came from
the input list. -/
theorem group_tasks_mem (l : List BenchmarkResult) (t : BenchmarkResult)
    (h : t ∈ joinedTasks (group_tasks_by_model l)) : t ∈ l := by
  rcases foldl_groupInsert_mem l [] t h with h' | h'
  · simp [joinedTasks] at h'
  · exact h'

/-- Every member of a group carries the group's model name. -/
theorem group_tasks_consistent (l : List BenchmarkResult) :
    ∀ g ∈ group_tasks_by_model l, ∀ x ∈ g.2, x.model_name = g.1 :=
  foldl_groupInsert_consistent l [] (by simp)

/-- The group keys (model names) are pairwise distinct. -/
theorem group_tasks_keys_nodup (l : List BenchmarkResult) :
    ((group_tasks_by_model l).map Prod.fst).Nodup :=
  foldl_groupInsert_keys_nodup l [] (by simp)

/-- Grouping loses no tasks: the groups' sizes sum to the input length. -/
theorem group_tasks_joinLen (l : List BenchmarkResult) :
    (joinedTasks (group_tasks_by_model l)).length = l.length :=
  (foldl_groupInsert_joinLen l [] (by simp)).trans (by simp [joinedTasks])

/-! ### `writesWithin` lemmas -/

theorem writesWithin_refl (tasks : List BenchmarkResult)
    (stats : List BenchmarkResultStatus) (s : Store) : writesWithin tasks stats s s :=
  fun _ => Or.inl rfl

theorem writesWithin_mono {tasks tasks' : List BenchmarkResult}
    {stats : List BenchmarkResultStatus} {s s' : Store}
    (hsub : ∀ t ∈ tasks, t ∈ tasks') (h : writesWithin tasks stats s s') :
    writesWithin tasks' stats s s' := by
  intro i
  rcases h i with h1 | ⟨r, hr, ⟨t, ht, hid⟩, u, hu, huid, hus⟩
  · exact Or.inl h1
  · exact Or.inr ⟨r, hr, ⟨t, hsub t ht, hid⟩, u, hu, huid, hus⟩

theorem writesWithin_trans {tasks : List BenchmarkResult}
    {stats : List BenchmarkResultStatus} {s1 s2 s3 : Store}
    (h12 : writesWithin tasks stats s1 s2) (h23 : writesWithin tasks stats s2 s3) :
    writesWithin tasks stats s1 s3 := by
  intro i
  rcases h23 i with h3 | ⟨r2, hr2, ⟨t2, ht2, hid2⟩, u2, hu2, huid2, hus2⟩
  · rcases h12 i with h1 | ⟨r, hr, htt, u, hu, huid, hus⟩
    · exact Or.inl (h3.trans h1)
    · exact Or.inr ⟨r, hr, htt, u, h3.trans hu, huid, hus⟩
  · rcases h12 i with h1 | ⟨r, hr, htt, u, hu, huid, hus⟩
    · rw [h1] at hr2
      exact Or.inr ⟨r2, hr2, ⟨t2, ht2, hid2⟩, u2, hu2, huid2, hus2⟩
    · rw [hu] at hr2
      obtain rfl : u = r2 := by injection hr2
      exact Or.inr ⟨r, hr, htt, u2, hu2, huid2.trans huid, hus2⟩

/-- A single row replace whose key comes from `tasks` and whose status is
among `stats`. -/
theorem writesWithin_update {tasks : List BenchmarkResult}
    {stats : List BenchmarkResultStatus} (s : Store) (u : BenchmarkResult)
    (ht : ∃ t ∈ tasks, t.result_id = u.result_id) (hs : u.status ∈ stats) :
    writesWithin tasks stats s (s.update_benchmark_result u) := by
  intro i
  rcases update_get?_cases s u i with h | ⟨r, hr, hid, hu⟩
  · exact Or.inl h
  · obtain ⟨t, htm, htid⟩ := ht
    exact Or.inr ⟨r, hr, ⟨t, htm, htid.trans hid.symm⟩, u, hu, hid.symm, hs⟩

/-- Positions holding a row, as a length bound. -/
theorem getElem?_isSome_iff_lt {α : Type} (l : List α) (i : Nat) :
    l[i]?.isSome = true ↔ i < l.length := by
  rw [Option.isSome_iff_exists]
  constructor
  · rintro ⟨a, ha⟩; exact (List.getElem?_eq_some.mp ha).1
  · intro h; exact ⟨l[i], List.getElem?_eq_getElem h⟩

/-- `writesWithin` forces the row count to be unchanged. -/
theorem writesWithin_length {tasks : List BenchmarkResult}
    {stats : List BenchmarkResultStatus} {s s' : Store}
    (h : writesWithin tasks stats s s') : s'.results.length = s.results.length := by
  have hiff : ∀ i, i < s'.results.length ↔ i < s.results.length := by
    intro i
    rw [← getElem?_isSome_iff_lt, ← getElem?_isSome_iff_lt]
    rcases h i with h1 | ⟨r, hr, _, u, hu, _, _⟩
    · rw [h1]
    · rw [hr, hu]; simp
  have h1 := hiff s'.results.length
  have h2 := hiff s.results.length
  omega

/-- `writesWithin` preserves the per-position row keys. -/
theorem writesWithin_ids {tasks : List BenchmarkResult}
    {stats : List BenchmarkResultStatus} {s s' : Store}
    (h : writesWithin tasks stats s s') :
    s'.results.map BenchmarkResult.result_id = s.results.map BenchmarkResult.result_id := by
  apply List.ext_getElem?
  intro i
  rw [List.getElem?_map, List.getElem?_map]
  rcases h i with h1 | ⟨r, hr, _, u, hu, huid, _⟩
  · rw [h1]
  · rw [hr, hu]
    simp [huid]

/-! ### Per-task spec lemmas -/

/-- What one benchmark-task execution does: it may append inference-call
events for its model, leaves every other engine field alone, and either
leaves the store alone or replaces the processed task's row with a
WAITING_FOR_JUDGE row. -/
theorem execute_benchmark_task_spec (env : Env) (m : String)
    (task : BenchmarkResult) (st : EngineState) :
    (∃ Δ, (execute_benchmark_task env m task st).1.events = st.events ++ Δ ∧
      ∀ e ∈ Δ, e = Event.inferenceCall m false) ∧
    (execute_benchmark_task env m task st).1.completed_tasks = st.completed_tasks ∧
    (execute_benchmark_task env m task st).1.total_tasks = st.total_tasks ∧
    (execute_benchmark_task env m task st).1.stage = st.stage ∧
    (execute_benchmark_task env m task st).1.stop_reads = st.stop_reads ∧
    (execute_benchmark_task env m task st).1.current_model = st.current_model ∧
    (execute_benchmark_task env m task st).1.current_task_id = st.current_task_id ∧
    ((execute_benchmark_task env m task st).1.store = st.store ∨
      ∃ u, u.result_id = task.result_id ∧ u.status = BenchmarkResultStatus.WAITING_FOR_JUDGE ∧
        (execute_benchmark_task env m task st).1.store = st.store.update_benchmark_result u) := by
  unfold execute_benchmark_task
  cases hp : env.build_prompt task.task_id with
  | error e =>
    exact ⟨⟨[], by simp, by simp⟩, rfl, rfl, rfl, rfl, rfl, rfl, Or.inl rfl⟩
  | ok p =>
    dsimp only
    cases hi : env.inference m p "" false with
    | error e =>
      refine ⟨⟨[Event.inferenceCall m false], by simp [EngineState.addEvent], ?_⟩,
        rfl, rfl, rfl, rfl, rfl, rfl, Or.inl rfl⟩
      intro e he
      simpa using he
    | ok resp =>
      refine ⟨⟨[Event.inferenceCall m false], by simp [EngineState.addEvent], ?_⟩,
        rfl, rfl, rfl, rfl, rfl, rfl, Or.inr
          ⟨{ result_id := task.result_id
             run_id := task.run_id
             task_id := task.task_id
             model_name := task.model_name
             status := BenchmarkResultStatus.WAITING_FOR_JUDGE
             llm_response := some resp.llm_response
             time_taken_ms := some resp.time_taken_ms
             tokens_generated := some resp.tokens_generated
             evaluation_score := none
             evaluation_reason := none
             error_message := none }, rfl, rfl, rfl⟩⟩
      intro e he
      simpa using he

/-- What judging one task does: it may append judge-mode inference events,
leaves every other engine field alone, and either leaves the store alone or
replaces the processed task's row with a COMPLETED row. -/
theorem judge_task_spec (env : Env) (jm : String)
    (task : BenchmarkResult) (st : EngineState) :
    (∃ Δ, (judge_task env jm task st).1.events = st.events ++ Δ ∧
      ∀ e ∈ Δ, e = Event.inferenceCall jm true) ∧
    (judge_task env jm task st).1.completed_tasks = st.completed_tasks ∧
    (judge_task env jm task st).1.total_tasks = st.total_tasks ∧
    (judge_task env jm task st).1.stage = st.stage ∧
    (judge_task env jm task st).1.stop_reads = st.stop_reads ∧
    (judge_task env jm task st).1.current_model = st.current_model ∧
    (judge_task env jm task st).1.current_task_id = st.current_task_id ∧
    ((judge_task env jm task st).1.store = st.store ∨
      ∃ u, u.result_id = task.result_id ∧ u.status = BenchmarkResultStatus.COMPLETED ∧
        (judge_task env jm task st).1.store = st.store.update_benchmark_result u) := by
  unfold judge_task
  cases hp : env.build_judge_prompt task with
  | error e =>
    exact ⟨⟨[], by simp, by simp⟩, rfl, rfl, rfl, rfl, rfl, rfl, Or.inl rfl⟩
  | ok up =>
    obtain ⟨u_p, s_p⟩ := up
    dsimp only
    cases hi : env.inference jm u_p s_p true with
    | error e =>
      refine ⟨⟨[Event.inferenceCall jm true], by simp [EngineState.addEvent], ?_⟩,
        rfl, rfl, rfl, rfl, rfl, rfl, Or.inl rfl⟩
      intro e he
      simpa using he
    | ok resp =>
      dsimp only
      cases hpj : parse_judge_response resp.llm_response with
      | error e =>
        refine ⟨⟨[Event.inferenceCall jm true], by simp [EngineState.addEvent], ?_⟩,
          rfl, rfl, rfl, rfl, rfl, rfl, Or.inl rfl⟩
        intro e he
        simpa using he
      | ok parsed =>
        obtain ⟨he, g, r⟩ := parsed
        dsimp only
        refine ⟨⟨[Event.inferenceCall jm true], by simp [EngineState.addEvent], ?_⟩,
          rfl, rfl, rfl, rfl, rfl, rfl, Or.inr
            ⟨{ result_id := task.result_id
               run_id := task.run_id
               task_id := task.task_id
               model_name := task.model_name
               status := BenchmarkResultStatus.COMPLETED
               llm_response := task.llm_response
               time_taken_ms := task.time_taken_ms
               tokens_generated := task.tokens_generated
               evaluation_score := some g
               evaluation_reason := some r
               error_message := none }, rfl, rfl, rfl⟩⟩
        intro e he
        simpa using he

/-! ### Event-trace helpers -/

theorem mem_progressMsgs {msg : ReporterStatusMsg} {l : List Event} :
    msg ∈ progressMsgs l ↔ Event.progress msg ∈ l := by
  rw [progressMsgs, List.mem_filterMap]
  constructor
  · rintro ⟨e, he, heq⟩
    cases e with
    | progress m' =>
      simp only [Option.some.injEq] at heq
      exact heq ▸ he
    | statusChanged b => simp at heq
    | inferenceCall a b => simp at heq
  · intro h
    exact ⟨Event.progress msg, h, rfl⟩

theorem progressMsgs_append (l₁ l₂ : List Event) :
    progressMsgs (l₁ ++ l₂) = progressMsgs l₁ ++ progressMsgs l₂ :=
  List.filterMap_append l₁ l₂ _

theorem progressMsgs_nil {Δ : List Event} {m : String} {b : Bool}
    (h : ∀ e ∈ Δ, e = Event.inferenceCall m b) : progressMsgs Δ = [] := by
  rw [progressMsgs, List.filterMap_eq_nil_iff]
  intro e he
  rw [h e he]

theorem progressMsgs_cons_progress (m : ReporterStatusMsg) (l : List Event) :
    progressMsgs (Event.progress m :: l) = m :: progressMsgs l := rfl

theorem sorted_append_nat {l₁ l₂ : List Nat} :
    (l₁ ++ l₂).Sorted (· ≤ ·) ↔
      l₁.Sorted (· ≤ ·) ∧ l₂.Sorted (· ≤ ·) ∧ ∀ a ∈ l₁, ∀ b ∈ l₂, a ≤ b := by
  rw [List.Sorted, List.pairwise_append]

/-! ### Per-iteration spec lemmas -/

/-- What processing one benchmarking task does to the engine state. -/
theorem stage1_process_one_spec (env : Env) (rid : Nat) (m : String)
    (task : BenchmarkResult) (st : EngineState) :
    (stage1_process_one env rid m task st).stage = st.stage ∧
    (stage1_process_one env rid m task st).total_tasks = st.total_tasks ∧
    (stage1_process_one env rid m task st).current_model = st.current_model ∧
    (stage1_process_one env rid m task st).completed_tasks = st.completed_tasks + 1 ∧
    (stage1_process_one env rid m task st).stop_reads = st.stop_reads ∧
    writesWithin [task]
      [BenchmarkResultStatus.WAITING_FOR_JUDGE, BenchmarkResultStatus.FAILED]
      st.store (stage1_process_one env rid m task st).store ∧
    ∃ Δ p, (stage1_process_one env rid m task st).events =
        st.events ++ Δ ++ [Event.progress p] ∧
      (∀ e ∈ Δ, e = Event.inferenceCall m false) ∧
      p.current_stage = st.stage ∧ p.tasks_completed = st.completed_tasks + 1 ∧
      p.tasks_total = st.total_tasks := by
  unfold stage1_process_one
  obtain ⟨⟨Δt, hΔt, hΔtall⟩, hcomp2, htot2, hstage2, hreads2, hmodel2, _, hstore2⟩ :=
    execute_benchmark_task_spec env m task { st with current_task_id := task.task_id }
  rcases hexec : execute_benchmark_task env m task { st with current_task_id := task.task_id }
    with ⟨st2, exc⟩
  rw [hexec] at hΔt hcomp2 htot2 hstage2 hreads2 hmodel2 hstore2
  dsimp only at hΔt hcomp2 htot2 hstage2 hreads2 hmodel2 hstore2 ⊢
  rw [hexec]
  have hwr2 : writesWithin [task]
      [BenchmarkResultStatus.WAITING_FOR_JUDGE, BenchmarkResultStatus.FAILED]
      st.store st2.store := by
    rcases hstore2 with h | ⟨u, huid, hust, hupd⟩
    · rw [h]
      exact writesWithin_refl _ _ _
    · rw [hupd]
      exact writesWithin_update _ u ⟨task, List.mem_singleton_self task, huid.symm⟩
        (by rw [hust]; simp)
  cases exc with
  | none =>
    refine ⟨by simp [update_progress, EngineState.addEvent, hstage2],
      by simp [update_progress, EngineState.addEvent, htot2],
      by simp [update_progress, EngineState.addEvent, hmodel2],
      by simp [update_progress, EngineState.addEvent, hcomp2],
      by simp [update_progress, EngineState.addEvent, hreads2],
      by simpa [update_progress, EngineState.addEvent] using hwr2,
      Δt,
      { current_run_id := rid
        current_stage := st2.stage
        current_model := st2.current_model
        current_task := st2.current_task_id
        tasks_total := st2.total_tasks
        tasks_completed := st2.completed_tasks + 1 },
      by simp [update_progress, EngineState.addEvent, hΔt],
      hΔtall, by simp [hstage2], by simp [hcomp2], by simp [htot2]⟩
  | some e =>
    refine ⟨by simp [update_progress, EngineState.addEvent, hstage2],
      by simp [update_progress, EngineState.addEvent, htot2],
      by simp [update_progress, EngineState.addEvent, hmodel2],
      by simp [update_progress, EngineState.addEvent, hcomp2],
      by simp [update_progress, EngineState.addEvent, hreads2],
      by
        have hwrF : writesWithin [task]
            [BenchmarkResultStatus.WAITING_FOR_JUDGE, BenchmarkResultStatus.FAILED]
            st2.store (st2.store.update_benchmark_result (failed_task_row task e)) :=
          writesWithin_update _ _ ⟨task, List.mem_singleton_self task, rfl⟩
            (by simp [failed_task_row])
        simpa [update_progress, EngineState.addEvent] using writesWithin_trans hwr2 hwrF,
      Δt,
      { current_run_id := rid
        current_stage := st2.stage
        current_model := st2.current_model
        current_task := st2.current_task_id
        tasks_total := st2.total_tasks
        tasks_completed := st2.completed_tasks + 1 },
      by simp [update_progress, EngineState.addEvent, hΔt],
      hΔtall, by simp [hstage2], by simp [hcomp2], by simp [htot2]⟩

/-- What judging one task does to the engine state. -/
theorem stage2_process_one_spec (env : Env) (rid : Nat) (jm : String)
    (task : BenchmarkResult) (st : EngineState) :
    (stage2_process_one env rid jm task st).stage = st.stage ∧
    (stage2_process_one env rid jm task st).total_tasks = st.total_tasks ∧
    (stage2_process_one env rid jm task st).current_model = st.current_model ∧
    (stage2_process_one env rid jm task st).completed_tasks = st.completed_tasks + 1 ∧
    (stage2_process_one env rid jm task st).stop_reads = st.stop_reads ∧
    writesWithin [task]
      [BenchmarkResultStatus.COMPLETED, BenchmarkResultStatus.FAILED]
      st.store (stage2_process_one env rid jm task st).store ∧
    ∃ Δ p, (stage2_process_one env rid jm task st).events =
        st.events ++ Δ ++ [Event.progress p] ∧
      (∀ e ∈ Δ, e = Event.inferenceCall jm true) ∧
      p.current_stage = st.stage ∧ p.tasks_completed = st.completed_tasks + 1 ∧
      p.tasks_total = st.total_tasks := by
  unfold stage2_process_one
  obtain ⟨⟨Δt, hΔt, hΔtall⟩, hcomp2, htot2, hstage2, hreads2, hmodel2, _, hstore2⟩ :=
    judge_task_spec env jm task { st with current_task_id := task.task_id }
  rcases hexec : judge_task env jm task { st with current_task_id := task.task_id }
    with ⟨st2, exc⟩
  rw [hexec] at hΔt hcomp2 htot2 hstage2 hreads2 hmodel2 hstore2
  dsimp only at hΔt hcomp2 htot2 hstage2 hreads2 hmodel2 hstore2 ⊢
  rw [hexec]
  have hwr2 : writesWithin [task]
      [BenchmarkResultStatus.COMPLETED, BenchmarkResultStatus.FAILED]
      st.store st2.store := by
    rcases hstore2 with h | ⟨u, huid, hust, hupd⟩
    · rw [h]
      exact writesWithin_refl _ _ _
    · rw [hupd]
      exact writesWithin_update _ u ⟨task, List.mem_singleton_self task, huid.symm⟩
        (by rw [hust]; simp)
  cases exc with
  | none =>
    refine ⟨by simp [update_progress, EngineState.addEvent, hstage2],
      by simp [update_progress, EngineState.addEvent, htot2],
      by simp [update_progress, EngineState.addEvent, hmodel2],
      by simp [update_progress, EngineState.addEvent, hcomp2],
      by simp [update_progress, EngineState.addEvent, hreads2],
      by simpa [update_progress, EngineState.addEvent] using hwr2,
      Δt,
      { current_run_id := rid
        current_stage := st2.stage
        current_model := st2.current_model
        current_task := st2.current_task_id
        tasks_total := st2.total_tasks
        tasks_completed := st2.completed_tasks + 1 },
      by simp [update_progress, EngineState.addEvent, hΔt],
      hΔtall, by simp [hstage2], by simp [hcomp2], by simp [htot2]⟩
  | some e =>
    refine ⟨by simp [update_progress, EngineState.addEvent, hstage2],
      by simp [update_progress, EngineState.addEvent, htot2],
      by simp [update_progress, EngineState.addEvent, hmodel2],
      by simp [update_progress, EngineState.addEvent, hcomp2],
      by simp [update_progress, EngineState.addEvent, hreads2],
      by
        have hwrF : writesWithin [task]
            [BenchmarkResultStatus.COMPLETED, BenchmarkResultStatus.FAILED]
            st2.store (st2.store.update_benchmark_result (judge_failed_row task e)) :=
          writesWithin_update _ _ ⟨task, List.mem_singleton_self task, rfl⟩
            (by simp [judge_failed_row])
        simpa [update_progress, EngineState.addEvent] using writesWithin_trans hwr2 hwrF,
      Δt,
      { current_run_id := rid
        current_stage := st2.stage
        current_model := st2.current_model
        current_task := st2.current_task_id
        tasks_total := st2.total_tasks
        tasks_completed := st2.completed_tasks + 1 },
      by simp [update_progress, EngineState.addEvent, hΔt],
      hΔtall, by simp [hstage2], by simp [hcomp2], by simp [htot2]⟩

/-! ### Task-loop spec lemmas -/

/-- What the benchmarking task loop does: stage, totals and current model
are unchanged, the completed counter only grows, store changes are
WAITING_FOR_JUDGE / FAILED replaces keyed by the loop's tasks, and the
appended events are inference calls for the loop's model plus progress
snapshots carrying the current stage, with sorted completed values bounded
by the entry and exit counters. -/
theorem stage1TaskLoop_spec (env : Env) (rid : Nat) (sched : Nat → Bool) (m : String) :
    ∀ (tasks : List BenchmarkResult) (st : EngineState),
      (stage1TaskLoop env rid sched m tasks st).1.stage = st.stage ∧
      (stage1TaskLoop env rid sched m tasks st).1.total_tasks = st.total_tasks ∧
      (stage1TaskLoop env rid sched m tasks st).1.current_model = st.current_model ∧
      st.completed_tasks ≤ (stage1TaskLoop env rid sched m tasks st).1.completed_tasks ∧
      writesWithin tasks
        [BenchmarkResultStatus.WAITING_FOR_JUDGE, BenchmarkResultStatus.FAILED]
        st.store (stage1TaskLoop env rid sched m tasks st).1.store ∧
      ∃ Δ, (stage1TaskLoop env rid sched m tasks st).1.events = st.events ++ Δ ∧
        (∀ e ∈ Δ, (∃ msg, e = Event.progress msg ∧ msg.current_stage = st.stage ∧
            st.completed_tasks ≤ msg.tasks_completed ∧
            msg.tasks_completed ≤ (stage1TaskLoop env rid sched m tasks st).1.completed_tasks) ∨
          e = Event.inferenceCall m false) ∧
        List.Sorted (· ≤ ·) ((progressMsgs Δ).map ReporterStatusMsg.tasks_completed) := by
  intro tasks
  induction tasks with
  | nil =>
    intro st
    exact ⟨rfl, rfl, rfl, le_refl _, writesWithin_refl _ _ _,
      [], by simp [stage1TaskLoop], by simp, by simp [progressMsgs]⟩
  | cons task rest ih =>
    intro st
    rw [stage1TaskLoop]
    simp only [EngineState.readStop]
    cases hsched : sched st.stop_reads with
    | true =>
      rw [if_pos rfl]
      exact ⟨rfl, rfl, rfl, le_refl _, writesWithin_refl _ _ _,
        [], by simp, by simp, by simp [progressMsgs]⟩
    | false =>
      simp only [Bool.false_eq_true, if_false]
      obtain ⟨hstage1, htot1, hmodel1, hcomp1, _, hwr1, Δ1, p, hev1, hΔ1all, hpstage, hpcomp,
        _⟩ := stage1_process_one_spec env rid m task { st with stop_reads := st.stop_reads + 1 }
      obtain ⟨hstageR, htotR, hmodelR, hcompR, hwrR, ΔR, hΔR, hΔRall, hΔRsorted⟩ :=
        ih (stage1_process_one env rid m task { st with stop_reads := st.stop_reads + 1 })
      dsimp only at hstage1 htot1 hmodel1 hcomp1 hwr1 hev1 hpstage hpcomp
      refine ⟨hstageR.trans hstage1, htotR.trans htot1, hmodelR.trans hmodel1, ?_, ?_, ?_⟩
      · calc st.completed_tasks
            ≤ st.completed_tasks + 1 := by omega
          _ = _ := hcomp1.symm
          _ ≤ _ := hcompR
      · refine writesWithin_trans
          (writesWithin_mono (fun t ht => ?_) hwr1)
          (writesWithin_mono (fun t ht => List.mem_cons_of_mem task ht) hwrR)
        simp only [List.mem_singleton] at ht
        exact ht ▸ List.mem_cons_self task rest
      · refine ⟨Δ1 ++ [Event.progress p] ++ ΔR, ?_, ?_, ?_⟩
        · rw [hΔR, hev1]
          simp
        · intro e he
          simp only [List.mem_append, List.mem_singleton] at he
          rcases he with (he | he) | he
          · exact Or.inr (hΔ1all e he)
          · subst he
            refine Or.inl ⟨p, rfl, hpstage, by omega, ?_⟩
            calc p.tasks_completed = st.completed_tasks + 1 := hpcomp
              _ = _ := hcomp1.symm
              _ ≤ _ := hcompR
          · rcases hΔRall e he with ⟨msg, hmsg, hmsgstage, hmsglo, hmsghi⟩ | hinf
            · refine Or.inl ⟨msg, hmsg, hmsgstage.trans hstage1, ?_, hmsghi⟩
              calc st.completed_tasks ≤ st.completed_tasks + 1 := by omega
                _ = _ := hcomp1.symm
                _ ≤ _ := hmsglo
            · exact Or.inr hinf
        · rw [progressMsgs_append, progressMsgs_append, progressMsgs_nil hΔ1all]
          simp only [List.nil_append, progressMsgs, List.filterMap_cons, List.filterMap_nil]
          rw [List.map_append, sorted_append_nat]
          refine ⟨by simp, hΔRsorted, ?_⟩
          intro a ha b hb
          simp only [List.map_cons, List.map_nil, List.mem_singleton] at ha
          subst ha
          rw [List.mem_map] at hb
          obtain ⟨msg, hmsgmem, rfl⟩ := hb
          have hmem : Event.progress msg ∈ ΔR := mem_progressMsgs.mp hmsgmem
          rcases hΔRall _ hmem with ⟨msg', hmsg', _, hmsglo, _⟩ | hinf
          · obtain rfl : msg = msg' := by injection hmsg'
            calc p.tasks_completed = st.completed_tasks + 1 := hpcomp
              _ = _ := hcomp1.symm
              _ ≤ _ := hmsglo
          · simp at hinf

/-- What the judging task loop does (the stage-2 counterpart of
`stage1TaskLoop_spec`). -/
theorem stage2TaskLoop_spec (env : Env) (rid : Nat) (sched : Nat → Bool) (jm : String) :
    ∀ (tasks : List BenchmarkResult) (st : EngineState),
      (stage2TaskLoop env rid sched jm tasks st).1.stage = st.stage ∧
      (stage2TaskLoop env rid sched jm tasks st).1.total_tasks = st.total_tasks ∧
      (stage2TaskLoop env rid sched jm tasks st).1.current_model = st.current_model ∧
      st.completed_tasks ≤ (stage2TaskLoop env rid sched jm tasks st).1.completed_tasks ∧
      writesWithin tasks
        [BenchmarkResultStatus.COMPLETED, BenchmarkResultStatus.FAILED]
        st.store (stage2TaskLoop env rid sched jm tasks st).1.store ∧
      ∃ Δ, (stage2TaskLoop env rid sched jm tasks st).1.events = st.events ++ Δ ∧
        (∀ e ∈ Δ, (∃ msg, e = Event.progress msg ∧ msg.current_stage = st.stage ∧
            st.completed_tasks ≤ msg.tasks_completed ∧
            msg.tasks_completed ≤ (stage2TaskLoop env rid sched jm tasks st).1.completed_tasks) ∨
          e = Event.inferenceCall jm true) ∧
        List.Sorted (· ≤ ·) ((progressMsgs Δ).map ReporterStatusMsg.tasks_completed) := by
  intro tasks
  induction tasks with
  | nil =>
    intro st
    exact ⟨rfl, rfl, rfl, le_refl _, writesWithin_refl _ _ _,
      [], by simp [stage2TaskLoop], by simp, by simp [progressMsgs]⟩
  | cons task rest ih =>
    intro st
    rw [stage2TaskLoop]
    simp only [EngineState.readStop]
    cases hsched : sched st.stop_reads with
    | true =>
      rw [if_pos rfl]
      exact ⟨rfl, rfl, rfl, le_refl _, writesWithin_refl _ _ _,
        [], by simp, by simp, by simp [progressMsgs]⟩
    | false =>
      simp only [Bool.false_eq_true, if_false]
      obtain ⟨hstage1, htot1, hmodel1, hcomp1, _, hwr1, Δ1, p, hev1, hΔ1all, hpstage, hpcomp,
        _⟩ := stage2_process_one_spec env rid jm task { st with stop_reads := st.stop_reads + 1 }
      obtain ⟨hstageR, htotR, hmodelR, hcompR, hwrR, ΔR, hΔR, hΔRall, hΔRsorted⟩ :=
        ih (stage2_process_one env rid jm task { st with stop_reads := st.stop_reads + 1 })
      dsimp only at hstage1 htot1 hmodel1 hcomp1 hwr1 hev1 hpstage hpcomp
      refine ⟨hstageR.trans hstage1, htotR.trans htot1, hmodelR.trans hmodel1, ?_, ?_, ?_⟩
      · calc st.completed_tasks
            ≤ st.completed_tasks + 1 := by omega
          _ = _ := hcomp1.symm
          _ ≤ _ := hcompR
      · refine writesWithin_trans
          (writesWithin_mono (fun t ht => ?_) hwr1)
          (writesWithin_mono (fun t ht => List.mem_cons_of_mem task ht) hwrR)
        simp only [List.mem_singleton] at ht
        exact ht ▸ List.mem_cons_self task rest
      · refine ⟨Δ1 ++ [Event.progress p] ++ ΔR, ?_, ?_, ?_⟩
        · rw [hΔR, hev1]
          simp
        · intro e he
          simp only [List.mem_append, List.mem_singleton] at he
          rcases he with (he | he) | he
          · exact Or.inr (hΔ1all e he)
          · subst he
            refine Or.inl ⟨p, rfl, hpstage, by omega, ?_⟩
            calc p.tasks_completed = st.completed_tasks + 1 := hpcomp
              _ = _ := hcomp1.symm
              _ ≤ _ := hcompR
          · rcases hΔRall e he with ⟨msg, hmsg, hmsgstage, hmsglo, hmsghi⟩ | hinf
            · refine Or.inl ⟨msg, hmsg, hmsgstage.trans hstage1, ?_, hmsghi⟩
              calc st.completed_tasks ≤ st.completed_tasks + 1 := by omega
                _ = _ := hcomp1.symm
                _ ≤ _ := hmsglo
            · exact Or.inr hinf
        · rw [progressMsgs_append, progressMsgs_append, progressMsgs_nil hΔ1all]
          simp only [List.nil_append, progressMsgs, List.filterMap_cons, List.filterMap_nil]
          rw [List.map_append, sorted_append_nat]
          refine ⟨by simp, hΔRsorted, ?_⟩
          intro a ha b hb
          simp only [List.map_cons, List.map_nil, List.mem_singleton] at ha
          subst ha
          rw [List.mem_map] at hb
          obtain ⟨msg, hmsgmem, rfl⟩ := hb
          have hmem : Event.progress msg ∈ ΔR := mem_progressMsgs.mp hmsgmem
          rcases hΔRall _ hmem with ⟨msg', hmsg', _, hmsglo, _⟩ | hinf
          · obtain rfl : msg = msg' := by injection hmsg'
            calc p.tasks_completed = st.completed_tasks + 1 := hpcomp
              _ = _ := hcomp1.symm
              _ ≤ _ := hmsglo
          · simp at hinf

/-- What the benchmarking model-group loop does: stage and totals are
unchanged, the completed counter only grows, store changes are
WAITING_FOR_JUDGE / FAILED replaces keyed by the groups' tasks, and the
appended events are inference calls for the groups' models plus progress
snapshots carrying the current stage, with sorted completed values bounded
by the entry and exit counters. -/
theorem stage1GroupLoop_spec (env : Env) (rid : Nat) (sched : Nat → Bool) :
    ∀ (gs : List (String × List BenchmarkResult)) (st : EngineState),
      (stage1GroupLoop env rid sched gs st).1.stage = st.stage ∧
      (stage1GroupLoop env rid sched gs st).1.total_tasks = st.total_tasks ∧
      st.completed_tasks ≤ (stage1GroupLoop env rid sched gs st).1.completed_tasks ∧
      writesWithin (joinedTasks gs)
        [BenchmarkResultStatus.WAITING_FOR_JUDGE, BenchmarkResultStatus.FAILED]
        st.store (stage1GroupLoop env rid sched gs st).1.store ∧
      ∃ Δ, (stage1GroupLoop env rid sched gs st).1.events = st.events ++ Δ ∧
        (∀ e ∈ Δ, (∃ msg, e = Event.progress msg ∧ msg.current_stage = st.stage ∧
            st.completed_tasks ≤ msg.tasks_completed ∧
            msg.tasks_completed ≤ (stage1GroupLoop env rid sched gs st).1.completed_tasks) ∨
          (∃ x ∈ gs.map Prod.fst, e = Event.inferenceCall x false)) ∧
        List.Sorted (· ≤ ·) ((progressMsgs Δ).map ReporterStatusMsg.tasks_completed) := by
  intro gs
  induction gs with
  | nil =>
    intro st
    exact ⟨rfl, rfl, le_refl _, by simpa [joinedTasks] using writesWithin_refl [] _ st.store,
      [], by simp [stage1GroupLoop], by simp, by simp [progressMsgs]⟩
  | cons g rest ih =>
    obtain ⟨model_name, tasks_for_model⟩ := g
    intro st
    rw [stage1GroupLoop]
    simp only [EngineState.readStop]
    cases hsched : sched st.stop_reads with
    | true =>
      rw [if_pos rfl]
      exact ⟨rfl, rfl, le_refl _, writesWithin_refl _ _ _,
        [], by simp, by simp, by simp [progressMsgs]⟩
    | false =>
      rw [if_neg (by simp)]
      cases hwarm : warmup_model env model_name with
      | false =>
        rw [if_pos (by simp [hwarm])]
        refine ⟨rfl, rfl, le_refl _, writesWithin_refl _ _ _,
          [Event.progress
            { current_run_id := rid
              current_stage := st.stage
              current_model := model_name
              current_task := st.current_task_id
              tasks_total := st.total_tasks
              tasks_completed := st.completed_tasks }], ?_, ?_, by simp [progressMsgs]⟩
        · simp [update_progress, EngineState.addEvent]
        · intro e he
          simp only [List.mem_singleton] at he
          subst he
          exact Or.inl ⟨_, rfl, rfl, le_refl _, le_refl _⟩
      | true =>
        rw [if_neg (by simp [hwarm])]
        obtain ⟨hstageL, htotL, _, hcompL, hwrL, ΔL, hΔL, hΔLall, hΔLsorted⟩ :=
          stage1TaskLoop_spec env rid sched model_name tasks_for_model
            (update_progress rid
              { st with stop_reads := st.stop_reads + 1, current_model := model_name })
        rcases hloop : stage1TaskLoop env rid sched model_name tasks_for_model
            (update_progress rid
              { st with stop_reads := st.stop_reads + 1, current_model := model_name })
          with ⟨st2, cont⟩
        rw [hloop] at hstageL htotL hcompL hwrL hΔL hΔLall
        simp only [update_progress, EngineState.addEvent] at hstageL htotL hcompL hwrL hΔL hΔLall
        try dsimp only at hstageL htotL hcompL hwrL hΔL hΔLall
        -- the events appended by the progress emission plus the task loop
        have hwrL' : writesWithin (joinedTasks ((model_name, tasks_for_model) :: rest))
            [BenchmarkResultStatus.WAITING_FOR_JUDGE, BenchmarkResultStatus.FAILED]
            st.store st2.store :=
          writesWithin_mono
            (fun t ht => mem_joinedTasks.mpr
              ⟨(model_name, tasks_for_model), List.mem_cons_self _ _, ht⟩) hwrL
        have hΔLgood : ∀ e ∈ ΔL,
            (∃ msg, e = Event.progress msg ∧ msg.current_stage = st.stage ∧
              st.completed_tasks ≤ msg.tasks_completed ∧
              msg.tasks_completed ≤ st2.completed_tasks) ∨
            (∃ x ∈ ((model_name, tasks_for_model) :: rest).map Prod.fst,
              e = Event.inferenceCall x false) := by
          intro e he
          rcases hΔLall e he with ⟨msg, hmsg, hmsgstage, hmsglo, hmsghi⟩ | hinf
          · exact Or.inl ⟨msg, hmsg, hmsgstage, hmsglo, hmsghi⟩
          · exact Or.inr ⟨model_name, by simp, hinf⟩
        cases cont with
        | false =>
          rw [if_pos (by simp)]
          refine ⟨hstageL, htotL, hcompL, hwrL', ?_⟩
          refine ⟨Event.progress
              { current_run_id := rid
                current_stage := st.stage
                current_model := model_name
                current_task := st.current_task_id
                tasks_total := st.total_tasks
                tasks_completed := st.completed_tasks } :: ΔL, ?_, ?_, ?_⟩
          · rw [hΔL]
            simp
          · intro e he
            rcases List.mem_cons.mp he with he | he
            · subst he
              exact Or.inl ⟨_, rfl, rfl, le_refl _, hcompL⟩
            · exact hΔLgood e he
          · rw [progressMsgs_cons_progress, List.map_cons, List.sorted_cons]
            refine ⟨?_, hΔLsorted⟩
            intro b hb
            rw [List.mem_map] at hb
            obtain ⟨msg, hmsgmem, rfl⟩ := hb
            rcases hΔLall _ (mem_progressMsgs.mp hmsgmem) with
              ⟨msg', hmsg', _, hmsglo, _⟩ | hinf
            · obtain rfl : msg = msg' := by injection hmsg'
              exact hmsglo
            · simp at hinf
        | true =>
          rw [if_neg (by simp)]
          obtain ⟨hstageR, htotR, hcompR, hwrR, ΔR, hΔR, hΔRall, hΔRsorted⟩ := ih st2
          refine ⟨hstageR.trans hstageL, htotR.trans htotL, hcompL.trans hcompR,
            writesWithin_trans hwrL'
              (writesWithin_mono (fun t ht => mem_joinedTasks.mpr
                (by
                  obtain ⟨g', hg', ht'⟩ := mem_joinedTasks.mp ht
                  exact ⟨g', List.mem_cons_of_mem _ hg', ht'⟩)) hwrR), ?_⟩
          refine ⟨(Event.progress
              { current_run_id := rid
                current_stage := st.stage
                current_model := model_name
                current_task := st.current_task_id
                tasks_total := st.total_tasks
                tasks_completed := st.completed_tasks } :: ΔL) ++ ΔR, ?_, ?_, ?_⟩
          · rw [hΔR, hΔL]
            simp
          · intro e he
            rcases List.mem_append.mp he with he | he
            · rcases List.mem_cons.mp he with he | he
              · subst he
                exact Or.inl ⟨_, rfl, rfl, le_refl _, hcompL.trans hcompR⟩
              · rcases hΔLgood e he with ⟨msg, hmsg, hmsgstage, hmsglo, hmsghi⟩ | hinf
                · exact Or.inl ⟨msg, hmsg, hmsgstage, hmsglo, hmsghi.trans hcompR⟩
                · exact Or.inr hinf
            · rcases hΔRall e he with ⟨msg, hmsg, hmsgstage, hmsglo, hmsghi⟩ | hinf
              · exact Or.inl ⟨msg, hmsg, hmsgstage.trans hstageL,
                  (hcompL.trans hmsglo : _ ≤ _) |>.trans' (le_refl _) |>.trans' (by omega), hmsghi⟩
              · obtain ⟨x, hx, hex⟩ := hinf
                exact Or.inr ⟨x, List.mem_cons_of_mem _ hx, hex⟩
          · rw [progressMsgs_append, progressMsgs_cons_progress, List.map_append,
              List.map_cons, sorted_append_nat]
            refine ⟨?_, hΔRsorted, ?_⟩
            · rw [List.sorted_cons]
              refine ⟨?_, hΔLsorted⟩
              intro b hb
              rw [List.mem_map] at hb
              obtain ⟨msg, hmsgmem, rfl⟩ := hb
              rcases hΔLall _ (mem_progressMsgs.mp hmsgmem) with
                ⟨msg', hmsg', _, hmsglo, _⟩ | hinf
              · obtain rfl : msg = msg' := by injection hmsg'
                exact hmsglo
              · simp at hinf
            · intro a ha b hb
              rw [List.mem_map] at hb
              obtain ⟨msg, hmsgmem, rfl⟩ := hb
              have hblo : st2.completed_tasks ≤ msg.tasks_completed := by
                rcases hΔRall _ (mem_progressMsgs.mp hmsgmem) with
                  ⟨msg', hmsg', _, hmsglo, _⟩ | hinf
                · obtain rfl : msg = msg' := by injection hmsg'
                  exact hmsglo
                · obtain ⟨x, _, hex⟩ := hinf
                  simp at hex
              rcases List.mem_cons.mp ha with ha | ha
              · subst ha
                exact hcompL.trans hblo
              · rw [List.mem_map] at ha
                obtain ⟨msga, hmsgamem, rfl⟩ := ha
                rcases hΔLall _ (mem_progressMsgs.mp hmsgamem) with
                  ⟨msg', hmsg', _, _, hmsghi⟩ | hinf
                · obtain rfl : msga = msg' := by injection hmsg'
                  exact hmsghi.trans hblo
                · simp at hinf

/-! ### Stage-level spec lemmas -/

theorem mem_resultsForRunWithStatus {s : Store} {rid : Nat}
    {status : BenchmarkResultStatus} {t : BenchmarkResult} :
    t ∈ s.resultsForRunWithStatus rid status ↔
      t ∈ s.results ∧ t.run_id = rid ∧ t.status = status := by
  simp [Store.resultsForRunWithStatus, List.mem_filter]

/-- What the benchmarking stage does: the output stage label is
BENCHMARKING, the store changes are WAITING_FOR_JUDGE / FAILED replaces
keyed by the run's NOT_COMPLETED rows, and the appended events are
benchmark-mode inference calls plus progress snapshots labelled
BENCHMARKING whose completed values are sorted and bounded by the output
counter. -/
theorem execute_benchmark_for_tasks_spec (env : Env) (rid : Nat) (sched : Nat → Bool)
    (st : EngineState) :
    (execute_benchmark_for_tasks env rid sched st).1.stage = Stage.BENCHMARKING ∧
    writesWithin (st.store.resultsForRunWithStatus rid BenchmarkResultStatus.NOT_COMPLETED)
      [BenchmarkResultStatus.WAITING_FOR_JUDGE, BenchmarkResultStatus.FAILED]
      st.store (execute_benchmark_for_tasks env rid sched st).1.store ∧
    ∃ Δ, (execute_benchmark_for_tasks env rid sched st).1.events = st.events ++ Δ ∧
      (∀ e ∈ Δ, (∃ msg, e = Event.progress msg ∧ msg.current_stage = Stage.BENCHMARKING ∧
          msg.tasks_completed ≤ (execute_benchmark_for_tasks env rid sched st).1.completed_tasks) ∨
        (∃ x, e = Event.inferenceCall x false)) ∧
      List.Sorted (· ≤ ·) ((progressMsgs Δ).map ReporterStatusMsg.tasks_completed) := by
  rw [execute_benchmark_for_tasks]
  simp only [EngineState.readStop]
  cases hsched : sched st.stop_reads with
  | true =>
    rw [if_pos rfl]
    exact ⟨rfl, writesWithin_refl _ _ _, [], by simp, by simp, by simp [progressMsgs]⟩
  | false =>
    rw [if_neg (by simp)]
    try dsimp only
    cases hempty : (st.store.resultsForRunWithStatus rid
        BenchmarkResultStatus.NOT_COMPLETED).isEmpty with
    | true =>
      rw [if_pos rfl]
      refine ⟨rfl, writesWithin_refl _ _ _,
        [Event.progress
          { current_run_id := rid
            current_stage := Stage.BENCHMARKING
            current_model := st.current_model
            current_task := st.current_task_id
            tasks_total := (st.store.resultsForRun rid).length
            tasks_completed := (st.store.resultsForRun rid).length -
              (st.store.resultsForRunWithStatus rid
                BenchmarkResultStatus.NOT_COMPLETED).length }],
        by simp [update_progress, EngineState.addEvent], ?_, by simp [progressMsgs]⟩
      intro e he
      simp only [List.mem_singleton] at he
      subst he
      exact Or.inl ⟨_, rfl, rfl, le_refl _⟩
    | false =>
      rw [if_neg (by simp)]
      obtain ⟨hstageG, htotG, hcompG, hwrG, ΔG, hΔG, hΔGall, hΔGsorted⟩ :=
        stage1GroupLoop_spec env rid sched
          (group_tasks_by_model (st.store.resultsForRunWithStatus rid
            BenchmarkResultStatus.NOT_COMPLETED))
          (update_progress rid
            { st with
                stage := Stage.BENCHMARKING
                stop_reads := st.stop_reads + 1
                total_tasks := (st.store.resultsForRun rid).length
                completed_tasks := (st.store.resultsForRun rid).length -
                  (st.store.resultsForRunWithStatus rid
                    BenchmarkResultStatus.NOT_COMPLETED).length })
      simp only [update_progress, EngineState.addEvent] at hstageG htotG hcompG hwrG hΔG hΔGall
      try dsimp only at hstageG htotG hcompG hwrG hΔG hΔGall
      refine ⟨hstageG, writesWithin_mono (fun t ht => group_tasks_mem _ t ht) hwrG, ?_⟩
      refine ⟨Event.progress
          { current_run_id := rid
            current_stage := Stage.BENCHMARKING
            current_model := st.current_model
            current_task := st.current_task_id
            tasks_total := (st.store.resultsForRun rid).length
            tasks_completed := (st.store.resultsForRun rid).length -
              (st.store.resultsForRunWithStatus rid
                BenchmarkResultStatus.NOT_COMPLETED).length } :: ΔG, ?_, ?_, ?_⟩
      · simp only [update_progress, EngineState.addEvent]
        rw [hΔG]
        simp
      · intro e he
        rcases List.mem_cons.mp he with he | he
        · subst he
          exact Or.inl ⟨_, rfl, rfl, hcompG⟩
        · rcases hΔGall e he with ⟨msg, hmsg, hmsgstage, _, hmsghi⟩ | ⟨x, _, hex⟩
          · exact Or.inl ⟨msg, hmsg, hmsgstage, hmsghi⟩
          · exact Or.inr ⟨x, hex⟩
      · rw [progressMsgs_cons_progress, List.map_cons, List.sorted_cons]
        refine ⟨?_, hΔGsorted⟩
        intro b hb
        rw [List.mem_map] at hb
        obtain ⟨msg, hmsgmem, rfl⟩ := hb
        rcases hΔGall _ (mem_progressMsgs.mp hmsgmem) with
          ⟨msg', hmsg', _, hmsglo, _⟩ | ⟨x, _, hex⟩
        · obtain rfl : msg = msg' := by injection hmsg'
          exact hmsglo
        · simp at hex

/-- What the judging stage does: the output stage label is JUDGING, the
store changes are COMPLETED / FAILED replaces keyed by the run's
WAITING_FOR_JUDGE rows, and the appended events are judge-mode inference
calls plus progress snapshots labelled JUDGING whose completed values are
sorted and bounded by the output counter. -/
theorem execute_judging_for_tasks_spec (env : Env) (rid : Nat) (sched : Nat → Bool)
    (st : EngineState) :
    (execute_judging_for_tasks env rid sched st).1.stage = Stage.JUDGING ∧
    writesWithin (st.store.resultsForRunWithStatus rid BenchmarkResultStatus.WAITING_FOR_JUDGE)
      [BenchmarkResultStatus.COMPLETED, BenchmarkResultStatus.FAILED]
      st.store (execute_judging_for_tasks env rid sched st).1.store ∧
    ∃ Δ, (execute_judging_for_tasks env rid sched st).1.events = st.events ++ Δ ∧
      (∀ e ∈ Δ, (∃ msg, e = Event.progress msg ∧ msg.current_stage = Stage.JUDGING ∧
          msg.tasks_completed ≤ (execute_judging_for_tasks env rid sched st).1.completed_tasks) ∨
        (∃ x, e = Event.inferenceCall x true)) ∧
      List.Sorted (· ≤ ·) ((progressMsgs Δ).map ReporterStatusMsg.tasks_completed) := by
  rw [execute_judging_for_tasks]
  cases hrun : (st.store.retrieve_benchmark_run rid) with
  | error e =>
    exact ⟨rfl, writesWithin_refl _ _ _, [], by simp, by simp, by simp [progressMsgs]⟩
  | ok run =>
    dsimp only
    cases hempty : (st.store.resultsForRunWithStatus rid
        BenchmarkResultStatus.WAITING_FOR_JUDGE).isEmpty with
    | true =>
      rw [if_pos rfl]
      refine ⟨rfl, writesWithin_refl _ _ _,
        [Event.progress
          { current_run_id := rid
            current_stage := Stage.JUDGING
            current_model := run.judge_model
            current_task := st.current_task_id
            tasks_total := (st.store.resultsForRun rid).length
            tasks_completed := (st.store.resultsForRun rid).length -
              (st.store.resultsForRunWithStatus rid
                BenchmarkResultStatus.WAITING_FOR_JUDGE).length }],
        by simp [update_progress, EngineState.addEvent], ?_, by simp [progressMsgs]⟩
      intro e he
      simp only [List.mem_singleton] at he
      subst he
      exact Or.inl ⟨_, rfl, rfl, le_refl _⟩
    | false =>
      rw [if_neg (by simp)]
      cases hwarm : warmup_model env run.judge_model with
      | false =>
        rw [if_pos (by simp [hwarm])]
        refine ⟨rfl, writesWithin_refl _ _ _,
          [Event.progress
            { current_run_id := rid
              current_stage := Stage.JUDGING
              current_model := run.judge_model
              current_task := st.current_task_id
              tasks_total := (st.store.resultsForRun rid).length
              tasks_completed := (st.store.resultsForRun rid).length -
                (st.store.resultsForRunWithStatus rid
                  BenchmarkResultStatus.WAITING_FOR_JUDGE).length }],
          by simp [update_progress, EngineState.addEvent], ?_, by simp [progressMsgs]⟩
        intro e he
        simp only [List.mem_singleton] at he
        subst he
        exact Or.inl ⟨_, rfl, rfl, le_refl _⟩
      | true =>
        rw [if_neg (by simp [hwarm])]
        obtain ⟨hstageL, htotL, _, hcompL, hwrL, ΔL, hΔL, hΔLall, hΔLsorted⟩ :=
          stage2TaskLoop_spec env rid sched run.judge_model
            (st.store.resultsForRunWithStatus rid BenchmarkResultStatus.WAITING_FOR_JUDGE)
            (update_progress rid
              { st with
                  stage := Stage.JUDGING
                  total_tasks := (st.store.resultsForRun rid).length
                  completed_tasks := (st.store.resultsForRun rid).length -
                    (st.store.resultsForRunWithStatus rid
                      BenchmarkResultStatus.WAITING_FOR_JUDGE).length
                  current_model := run.judge_model })
        simp only [update_progress, EngineState.addEvent] at hstageL htotL hcompL hwrL hΔL hΔLall
        try dsimp only at hstageL htotL hcompL hwrL hΔL hΔLall
        refine ⟨hstageL, hwrL, ?_⟩
        refine ⟨Event.progress
            { current_run_id := rid
              current_stage := Stage.JUDGING
              current_model := run.judge_model
              current_task := st.current_task_id
              tasks_total := (st.store.resultsForRun rid).length
              tasks_completed := (st.store.resultsForRun rid).length -
                (st.store.resultsForRunWithStatus rid
                  BenchmarkResultStatus.WAITING_FOR_JUDGE).length } :: ΔL, ?_, ?_, ?_⟩
        · simp only [update_progress, EngineState.addEvent]
          rw [hΔL]
          simp
        · intro e he
          rcases List.mem_cons.mp he with he | he
          · subst he
            exact Or.inl ⟨_, rfl, rfl, hcompL⟩
          · rcases hΔLall e he with ⟨msg, hmsg, hmsgstage, _, hmsghi⟩ | hinf
            · exact Or.inl ⟨msg, hmsg, hmsgstage, hmsghi⟩
            · exact Or.inr ⟨run.judge_model, hinf⟩
        · rw [progressMsgs_cons_progress, List.map_cons, List.sorted_cons]
          refine ⟨?_, hΔLsorted⟩
          intro b hb
          rw [List.mem_map] at hb
          obtain ⟨msg, hmsgmem, rfl⟩ := hb
          rcases hΔLall _ (mem_progressMsgs.mp hmsgmem) with
            ⟨msg', hmsg', _, hmsglo, _⟩ | hinf
          · obtain rfl : msg = msg' := by injection hmsg'
            exact hmsglo
          · simp at hinf

theorem mem_of_getElem?_some {α : Type} {l : List α} {i : Nat} {a : α}
    (h : l[i]? = some a) : a ∈ l := by
  obtain ⟨hlt, rfl⟩ := List.getElem?_eq_some.mp h
  exact List.getElem_mem hlt

/-- The store produced by `_execute_benchmark`: benchmarking-stage writes
(keyed by the run's NOT_COMPLETED rows) followed — when stage 1 returned
`True` — by judging-stage writes (keyed by the intermediate store's
WAITING_FOR_JUDGE rows). -/
theorem execute_benchmark_store_writes (env : Env) (rid : Nat) (sched : Nat → Bool)
    (st : EngineState) :
    ∃ s1 : Store,
      writesWithin (st.store.resultsForRunWithStatus rid BenchmarkResultStatus.NOT_COMPLETED)
        [BenchmarkResultStatus.WAITING_FOR_JUDGE, BenchmarkResultStatus.FAILED]
        st.store s1 ∧
      ((execute_benchmark env rid sched st).store = s1 ∨
        writesWithin (s1.resultsForRunWithStatus rid BenchmarkResultStatus.WAITING_FOR_JUDGE)
          [BenchmarkResultStatus.COMPLETED, BenchmarkResultStatus.FAILED]
          s1 (execute_benchmark env rid sched st).store) := by
  unfold execute_benchmark
  obtain ⟨_, hwr1, _⟩ := execute_benchmark_for_tasks_spec env rid sched st
  rcases h1 : execute_benchmark_for_tasks env rid sched st with ⟨st1, ok1⟩
  rw [h1] at hwr1
  dsimp only at hwr1 ⊢
  cases ok1 with
  | false =>
    rw [if_pos (by simp)]
    exact ⟨st1.store, hwr1, Or.inl rfl⟩
  | true =>
    rw [if_neg (by simp)]
    obtain ⟨_, hwr2, _⟩ :=
      execute_judging_for_tasks_spec env rid sched (update_progress rid st1)
    rcases h2 : execute_judging_for_tasks env rid sched (update_progress rid st1)
      with ⟨st2, ok2⟩
    rw [h2] at hwr2
    dsimp only at hwr2 ⊢
    have hmid : (update_progress rid st1).store = st1.store := rfl
    rw [hmid] at hwr2
    refine ⟨st1.store, hwr1, Or.inr ?_⟩
    cases ok2 with
    | false =>
      rw [if_pos (by simp)]
      exact hwr2
    | true =>
      rw [if_neg (by simp)]
      exact hwr2

/-- The engine's final store is the store of the two-stage body run from
the construction-time state. -/
theorem engineRun_store (env : Env) (rid : Nat) (sched : Nat → Bool) (store : Store) :
    (engineRun env rid sched store).store =
      (execute_benchmark env rid sched
        ((update_progress rid (initialEngineState store)).addEvent
          (Event.statusChanged true))).store := by
  rfl

/-- C4: every result row either survives an engine invocation untouched or
moves strictly forward — NOT_COMPLETED to WAITING_FOR_JUDGE / FAILED in the
benchmarking stage (possibly on to COMPLETED / FAILED when judged in the
same invocation), WAITING_FOR_JUDGE to COMPLETED / FAILED in the judging
stage.  In particular a COMPLETED (or FAILED) row is never updated again, so
no result ever regresses.  Requires the stored rows to have pairwise
distinct keys (`result_id` is the table's primary key). -/
theorem engine_updates_only_forward (env : Env) (rid : Nat) (sched : Nat → Bool)
    (store : Store)
    (hnodup : (store.results.map BenchmarkResult.result_id).Nodup) :
    ∀ (i : Nat) (r r' : BenchmarkResult), store.results[i]? = some r →
      (engineRun env rid sched store).store.results[i]? = some r' →
      resultEvolves r r' := by
  intro i r r' hr hr'
  rw [engineRun_store] at hr'
  obtain ⟨s1, hwr1, hrest⟩ := execute_benchmark_store_writes env rid sched
    ((update_progress rid (initialEngineState store)).addEvent (Event.statusChanged true))
  have hst0 : ((update_progress rid (initialEngineState store)).addEvent
      (Event.statusChanged true)).store = store := rfl
  rw [hst0] at hwr1
  -- the row after stage 1
  have hstage1 : ∃ r1, s1.results[i]? = some r1 ∧
      (r1 = r ∨ (r.status = BenchmarkResultStatus.NOT_COMPLETED ∧
        r1.result_id = r.result_id ∧
        (r1.status = BenchmarkResultStatus.WAITING_FOR_JUDGE ∨
          r1.status = BenchmarkResultStatus.FAILED))) := by
    rcases hwr1 i with h | ⟨r0, hr0, ⟨t, htmem, htid⟩, u, hu, huid, hus⟩
    · exact ⟨r, h.trans hr, Or.inl rfl⟩
    · rw [hr] at hr0
      obtain rfl : r0 = r := by injection hr0 with h0; exact h0.symm
      obtain ⟨htstore, _, htstatus⟩ := mem_resultsForRunWithStatus.mp htmem
      have : t = r0 := List.inj_on_of_nodup_map hnodup htstore (mem_of_getElem?_some hr) htid
      subst this
      simp only [List.mem_cons, List.mem_singleton, List.not_mem_nil, or_false] at hus
      exact ⟨u, hu, Or.inr ⟨htstatus, huid, hus⟩⟩
  obtain ⟨r1, hr1, hrel1⟩ := hstage1
  -- key structure of the intermediate store
  have hids1 : s1.results.map BenchmarkResult.result_id =
      store.results.map BenchmarkResult.result_id := writesWithin_ids hwr1
  have hnodup1 : (s1.results.map BenchmarkResult.result_id).Nodup := by
    rw [hids1]; exact hnodup
  -- the row after stage 2 (or no stage 2)
  have hstage2 : r' = r1 ∨ (r1.status = BenchmarkResultStatus.WAITING_FOR_JUDGE ∧
      r'.result_id = r1.result_id ∧
      (r'.status = BenchmarkResultStatus.COMPLETED ∨
        r'.status = BenchmarkResultStatus.FAILED)) := by
    rcases hrest with h | hwr2
    · rw [h] at hr'
      rw [hr1] at hr'
      exact Or.inl (by injection hr' with h2; exact h2.symm)
    · rcases hwr2 i with h | ⟨r0, hr0, ⟨t, htmem, htid⟩, u, hu, huid, hus⟩
      · rw [h, hr1] at hr'
        exact Or.inl (by injection hr' with h2; exact h2.symm)
      · rw [hr1] at hr0
        obtain rfl : r0 = r1 := by injection hr0 with h0; exact h0.symm
        obtain ⟨htstore, _, htstatus⟩ := mem_resultsForRunWithStatus.mp htmem
        have : t = r0 :=
          List.inj_on_of_nodup_map hnodup1 htstore (mem_of_getElem?_some hr1) htid
        subst this
        rw [hu] at hr'
        obtain rfl : u = r' := by injection hr'
        simp only [List.mem_cons, List.mem_singleton, List.not_mem_nil, or_false] at hus
        exact Or.inr ⟨htstatus, huid, hus⟩
  -- compose the two stages
  rcases hrel1 with rfl | ⟨hrNC, hid1, hst1⟩
  · rcases hstage2 with rfl | ⟨hW, hid2, hst2⟩
    · exact ⟨rfl, Or.inl rfl⟩
    · exact ⟨hid2, Or.inr (Or.inr ⟨hW, hst2⟩)⟩
  · rcases hstage2 with rfl | ⟨hW, hid2, hst2⟩
    · exact ⟨hid1, Or.inr (Or.inl ⟨hrNC, by tauto⟩)⟩
    · refine ⟨hid2.trans hid1, Or.inr (Or.inl ⟨hrNC, by tauto⟩)⟩

theorem engine_updates_only_forward_witness :
    ((demoStoreNC.results.map BenchmarkResult.result_id).Nodup ∧
      demoStoreNC.results[0]? = some demoRowNC ∧
      (engineRun demoEnv 7 noStop demoStoreNC).store.results[0]? =
        some { demoRowW with
          status := .COMPLETED
          evaluation_score := some (PRat.ofInt 1)
          evaluation_reason := some "ok"
          error_message := none }) ∧
    resultEvolves demoRowNC
      { demoRowW with
        status := .COMPLETED
        evaluation_score := some (PRat.ofInt 1)
        evaluation_reason := some "ok"
        error_message := none } :=
  ⟨⟨by decide, by decide, by decide⟩,
    engine_updates_only_forward demoEnv 7 noStop demoStoreNC (by decide) 0 _ _
      (by decide) (by decide)⟩

/-- In a duplicate-free list the `k`-th element does not occur among the
first `k` elements. -/
theorem get_not_mem_take {α : Type} {l : List α} {k : Nat} (hk : k < l.length)
    (hnd : l.Nodup) : l.get ⟨k, hk⟩ ∉ l.take k := by
  intro hmem
  obtain ⟨j, hj, hget⟩ := List.mem_iff_getElem.mp hmem
  have hjk : j < k := by rw [List.length_take] at hj; omega
  rw [List.getElem_take] at hget
  simp only [List.get_eq_getElem] at hget
  have : j = k := hnd.getElem_inj_iff.mp hget
  omega

/-- When some group's warm-up fails, the benchmarking model-group loop
returns `False` having written only rows of the groups before the failing
one (as WAITING_FOR_JUDGE / FAILED replaces), and having performed
inference calls only for the models of those earlier groups — never in
judge mode. -/
theorem stage1GroupLoop_abort (env : Env) (rid : Nat) (sched : Nat → Bool) :
    ∀ (gs : List (String × List BenchmarkResult)) (k : Nat) (st : EngineState)
      (hk : k < gs.length),
      warmup_model env (gs.get ⟨k, hk⟩).1 = false →
      (stage1GroupLoop env rid sched gs st).2 = false ∧
      writesWithin (joinedTasks (gs.take k))
        [BenchmarkResultStatus.WAITING_FOR_JUDGE, BenchmarkResultStatus.FAILED]
        st.store (stage1GroupLoop env rid sched gs st).1.store ∧
      ∃ Δ, (stage1GroupLoop env rid sched gs st).1.events = st.events ++ Δ ∧
        ∀ m b, Event.inferenceCall m b ∈ Δ →
          b = false ∧ m ∈ (gs.take k).map Prod.fst := by
  intro gs
  induction gs with
  | nil =>
    intro k st hk
    exact absurd hk (by simp)
  | cons g rest ih =>
    obtain ⟨model_name, tasks_for_model⟩ := g
    intro k st hk hfail
    rw [stage1GroupLoop]
    simp only [EngineState.readStop]
    cases hsched : sched st.stop_reads with
    | true =>
      rw [if_pos rfl]
      exact ⟨rfl, writesWithin_refl _ _ _, [], by simp, by simp⟩
    | false =>
      rw [if_neg (by simp)]
      cases k with
      | zero =>
        have hw : warmup_model env model_name = false := hfail
        rw [if_pos (by simp [hw])]
        refine ⟨rfl, writesWithin_refl _ _ _,
          [Event.progress
            { current_run_id := rid
              current_stage := st.stage
              current_model := model_name
              current_task := st.current_task_id
              tasks_total := st.total_tasks
              tasks_completed := st.completed_tasks }], ?_, ?_⟩
        · simp [update_progress, EngineState.addEvent]
        · intro m b hmb
          simp at hmb
      | succ j =>
        have hk' : j < rest.length := by simpa using hk
        have hfail' : warmup_model env (rest.get ⟨j, hk'⟩).1 = false := hfail
        cases hwarm : warmup_model env model_name with
        | false =>
          rw [if_pos (by simp [hwarm])]
          refine ⟨rfl, writesWithin_refl _ _ _,
            [Event.progress
              { current_run_id := rid
                current_stage := st.stage
                current_model := model_name
                current_task := st.current_task_id
                tasks_total := st.total_tasks
                tasks_completed := st.completed_tasks }], ?_, ?_⟩
          · simp [update_progress, EngineState.addEvent]
          · intro m b hmb
            simp at hmb
        | true =>
          rw [if_neg (by simp [hwarm])]
          obtain ⟨_, _, _, _, hwrL, ΔL, hΔL, hΔLall, _⟩ :=
            stage1TaskLoop_spec env rid sched model_name tasks_for_model
              (update_progress rid
                { st with stop_reads := st.stop_reads + 1, current_model := model_name })
          rcases hloop : stage1TaskLoop env rid sched model_name tasks_for_model
              (update_progress rid
                { st with stop_reads := st.stop_reads + 1, current_model := model_name })
            with ⟨st2, cont⟩
          rw [hloop] at hwrL hΔL hΔLall
          simp only [update_progress, EngineState.addEvent] at hwrL hΔL hΔLall
          try dsimp only at hwrL hΔL hΔLall
          have htake : joinedTasks (((model_name, tasks_for_model) :: rest).take (j + 1)) =
              tasks_for_model ++ joinedTasks (rest.take j) := by
            simp [joinedTasks]
          have hkeys : ((((model_name, tasks_for_model) :: rest).take (j + 1)).map Prod.fst) =
              model_name :: (rest.take j).map Prod.fst := by
            simp
          cases cont with
          | false =>
            rw [if_pos (by simp)]
            refine ⟨rfl, ?_, ?_⟩
            · rw [htake]
              exact writesWithin_mono (fun t ht => List.mem_append_left _ ht) hwrL
            · refine ⟨Event.progress
                  { current_run_id := rid
                    current_stage := st.stage
                    current_model := model_name
                    current_task := st.current_task_id
                    tasks_total := st.total_tasks
                    tasks_completed := st.completed_tasks } :: ΔL, ?_, ?_⟩
              · rw [hΔL]
                simp
              · intro m b hmb
                rcases List.mem_cons.mp hmb with hmb | hmb
                · exact absurd hmb (by simp)
                · rcases hΔLall _ hmb with ⟨msg, hmsg, _⟩ | hinf
                  · exact absurd hmsg (by simp)
                  · obtain ⟨rfl, rfl⟩ : m = model_name ∧ b = false := by
                      injection hinf with h1 h2
                      exact ⟨h1, h2⟩
                    refine ⟨rfl, ?_⟩
                    rw [hkeys]
                    exact List.mem_cons_self _ _
          | true =>
            rw [if_neg (by simp)]
            obtain ⟨hflagR, hwrR, ΔR, hΔR, hΔRall⟩ := ih j st2 hk' hfail'
            refine ⟨hflagR, ?_, ?_⟩
            · rw [htake]
              exact writesWithin_trans
                (writesWithin_mono (fun t ht => List.mem_append_left _ ht) hwrL)
                (writesWithin_mono (fun t ht => List.mem_append_right _ ht) hwrR)
            · refine ⟨(Event.progress
                  { current_run_id := rid
                    current_stage := st.stage
                    current_model := model_name
                    current_task := st.current_task_id
                    tasks_total := st.total_tasks
                    tasks_completed := st.completed_tasks } :: ΔL) ++ ΔR, ?_, ?_⟩
              · rw [hΔR, hΔL]
                simp
              · intro m b hmb
                rcases List.mem_append.mp hmb with hmb | hmb
                · rcases List.mem_cons.mp hmb with hmb | hmb
                  · exact absurd hmb (by simp)
                  · rcases hΔLall _ hmb with ⟨msg, hmsg, _⟩ | hinf
                    · exact absurd hmsg (by simp)
                    · obtain ⟨rfl, rfl⟩ : m = model_name ∧ b = false := by
                        injection hinf with h1 h2
                        exact ⟨h1, h2⟩
                      refine ⟨rfl, ?_⟩
                      rw [hkeys]
                      exact List.mem_cons_self _ _
                · obtain ⟨hb, hm⟩ := hΔRall m b hmb
                  refine ⟨hb, ?_⟩
                  rw [hkeys]
                  exact List.mem_cons_of_mem _ hm

/-- When the warm-up of the `k`-th model group fails, the benchmarking stage
returns `False` having written only rows of the groups before `k` and
performed inference calls only for the models of the groups before `k`,
never in judge mode. -/
theorem execute_benchmark_for_tasks_abort (env : Env) (rid : Nat)
    (sched : Nat → Bool) (st : EngineState) (k : Nat)
    (hk : k < (engineGroups st.store rid).length)
    (hfail : warmup_model env ((engineGroups st.store rid).get ⟨k, hk⟩).1 = false) :
    (execute_benchmark_for_tasks env rid sched st).2 = false ∧
    writesWithin (joinedTasks ((engineGroups st.store rid).take k))
      [BenchmarkResultStatus.WAITING_FOR_JUDGE, BenchmarkResultStatus.FAILED]
      st.store (execute_benchmark_for_tasks env rid sched st).1.store ∧
    ∃ Δ, (execute_benchmark_for_tasks env rid sched st).1.events = st.events ++ Δ ∧
      ∀ m b, Event.inferenceCall m b ∈ Δ →
        b = false ∧ m ∈ ((engineGroups st.store rid).take k).map Prod.fst := by
  rw [execute_benchmark_for_tasks]
  simp only [EngineState.readStop]
  cases hsched : sched st.stop_reads with
  | true =>
    rw [if_pos rfl]
    exact ⟨rfl, writesWithin_refl _ _ _, [], by simp, by simp⟩
  | false =>
    rw [if_neg (by simp)]
    try dsimp only
    cases hempty : (st.store.resultsForRunWithStatus rid
        BenchmarkResultStatus.NOT_COMPLETED).isEmpty with
    | true =>
      rw [if_pos rfl]
      refine ⟨rfl, writesWithin_refl _ _ _,
        [Event.progress
          { current_run_id := rid
            current_stage := Stage.BENCHMARKING
            current_model := st.current_model
            current_task := st.current_task_id
            tasks_total := (st.store.resultsForRun rid).length
            tasks_completed := (st.store.resultsForRun rid).length -
              (st.store.resultsForRunWithStatus rid
                BenchmarkResultStatus.NOT_COMPLETED).length }],
        by simp [update_progress, EngineState.addEvent], ?_⟩
      intro m b hmb
      simp at hmb
    | false =>
      rw [if_neg (by simp)]
      obtain ⟨hflag, hwr, Δ, hΔ, hΔall⟩ :=
        stage1GroupLoop_abort env rid sched
          (group_tasks_by_model (st.store.resultsForRunWithStatus rid
            BenchmarkResultStatus.NOT_COMPLETED)) k
          (update_progress rid
            { st with
                stage := Stage.BENCHMARKING
                stop_reads := st.stop_reads + 1
                total_tasks := (st.store.resultsForRun rid).length
                completed_tasks := (st.store.resultsForRun rid).length -
                  (st.store.resultsForRunWithStatus rid
                    BenchmarkResultStatus.NOT_COMPLETED).length })
          hk hfail
      simp only [update_progress, EngineState.addEvent] at hwr hΔ hΔall
      try dsimp only at hwr hΔ hΔall
      refine ⟨hflag, hwr, ?_⟩
      refine ⟨Event.progress
          { current_run_id := rid
            current_stage := Stage.BENCHMARKING
            current_model := st.current_model
            current_task := st.current_task_id
            tasks_total := (st.store.resultsForRun rid).length
            tasks_completed := (st.store.resultsForRun rid).length -
              (st.store.resultsForRunWithStatus rid
                BenchmarkResultStatus.NOT_COMPLETED).length } :: Δ, ?_, ?_⟩
      · simp only [update_progress, EngineState.addEvent]
        rw [hΔ]
        simp
      · intro m b hmb
        rcases List.mem_cons.mp hmb with hmb | hmb
        · exact absurd hmb (by simp)
        · exact hΔall m b hmb

/-- C7: if warming up the `k`-th model group fails, the engine invocation
aborts the run — every stored row whose model is not among the first `k`
group keys (in particular every row of the failing group and of all later
groups, their keys being distinct from the earlier ones) is left untouched,
every inference call performed belongs to one of the first `k` groups and
none is in judge mode (the judging stage never starts), and the failing
group's model is never sent an inference call at all. -/
theorem warmup_failure_aborts_run (env : Env) (rid : Nat) (sched : Nat → Bool)
    (store : Store)
    (hnodup : (store.results.map BenchmarkResult.result_id).Nodup)
    (k : Nat) (hk : k < (engineGroups store rid).length)
    (hfail : warmup_model env ((engineGroups store rid).get ⟨k, hk⟩).1 = false) :
    (∀ (i : Nat) (r : BenchmarkResult), store.results[i]? = some r →
      r.model_name ∉ ((engineGroups store rid).take k).map Prod.fst →
      (engineRun env rid sched store).store.results[i]? = some r) ∧
    (∀ m b, Event.inferenceCall m b ∈ (engineRun env rid sched store).events →
      b = false ∧ m ∈ ((engineGroups store rid).take k).map Prod.fst) ∧
    ∀ b, Event.inferenceCall ((engineGroups store rid).get ⟨k, hk⟩).1 b ∉
      (engineRun env rid sched store).events := by
  obtain ⟨hflag, hwr, Δ, hΔ, hΔall⟩ := execute_benchmark_for_tasks_abort env rid sched
    ((update_progress rid (initialEngineState store)).addEvent (Event.statusChanged true))
    k hk hfail
  have hst0 : ((update_progress rid (initialEngineState store)).addEvent
      (Event.statusChanged true)).store = store := rfl
  rw [hst0] at hwr
  rcases h1 : execute_benchmark_for_tasks env rid sched
      ((update_progress rid (initialEngineState store)).addEvent (Event.statusChanged true))
    with ⟨st1, ok1⟩
  rw [h1] at hflag hwr hΔ
  dsimp only at hflag hwr hΔ
  subst hflag
  have hx : execute_benchmark env rid sched
      ((update_progress rid (initialEngineState store)).addEvent (Event.statusChanged true)) =
      st1 := by
    rw [execute_benchmark, h1]
    simp
  have hs : (engineRun env rid sched store).store = st1.store := by
    rw [engineRun_store, hx]
  have h0ev : ((update_progress rid (initialEngineState store)).addEvent
      (Event.statusChanged true)).events =
      [Event.progress
        { current_run_id := rid
          current_stage := Stage.INITIALIZING
          current_model := ""
          current_task := ""
          tasks_total := 0
          tasks_completed := 0 },
        Event.statusChanged true] := rfl
  rw [h0ev] at hΔ
  have hev : (engineRun env rid sched store).events =
      st1.events ++ [Event.statusChanged false,
        Event.progress
          { current_run_id := rid
            current_stage := Stage.FINISHED
            current_model := ""
            current_task := ""
            tasks_total := st1.total_tasks
            tasks_completed := st1.completed_tasks }] := by
    rw [engineRun]
    dsimp only
    rw [hx]
    simp [update_progress, EngineState.addEvent]
  have ha : ∀ (i : Nat) (r : BenchmarkResult), store.results[i]? = some r →
      r.model_name ∉ ((engineGroups store rid).take k).map Prod.fst →
      (engineRun env rid sched store).store.results[i]? = some r := by
    intro i r hir hnotin
    rw [hs]
    rcases hwr i with h | ⟨r0, hr0, ⟨t, htmem, htid⟩, u, hu, huid, hus⟩
    · rw [h]
      exact hir
    · exfalso
      rw [hir] at hr0
      obtain rfl : r0 = r := by injection hr0 with h0; exact h0.symm
      obtain ⟨g, hgtake, htg⟩ := mem_joinedTasks.mp htmem
      have hgmem : g ∈ engineGroups store rid := List.take_subset _ _ hgtake
      have htmodel : t.model_name = g.1 := group_tasks_consistent _ g hgmem t htg
      have htrun : t ∈ store.resultsForRunWithStatus rid
          BenchmarkResultStatus.NOT_COMPLETED :=
        group_tasks_mem _ t (mem_joinedTasks.mpr ⟨g, hgmem, htg⟩)
      have htstore : t ∈ store.results := (mem_resultsForRunWithStatus.mp htrun).1
      have hteq : t = r0 :=
        List.inj_on_of_nodup_map hnodup htstore (mem_of_getElem?_some hir) htid
      refine hnotin ?_
      rw [← hteq, htmodel]
      exact List.mem_map.mpr ⟨g, hgtake, rfl⟩
  have hb : ∀ m b, Event.inferenceCall m b ∈ (engineRun env rid sched store).events →
      b = false ∧ m ∈ ((engineGroups store rid).take k).map Prod.fst := by
    intro m b hmb
    rw [hev] at hmb
    rcases List.mem_append.mp hmb with hmb | hmb
    · rw [hΔ] at hmb
      rcases List.mem_append.mp hmb with hmb | hmb
      · simp at hmb
      · exact hΔall m b hmb
    · simp at hmb
  refine ⟨ha, hb, ?_⟩
  intro b hmemev
  obtain ⟨_, hkeymem⟩ := hb _ _ hmemev
  have hknd : ((engineGroups store rid).map Prod.fst).Nodup := group_tasks_keys_nodup _
  rw [List.map_take] at hkeymem
  have hk2 : k < ((engineGroups store rid).map Prod.fst).length := by
    rw [List.length_map]
    exact hk
  have hgetmap : ((engineGroups store rid).map Prod.fst).get ⟨k, hk2⟩ =
      ((engineGroups store rid).get ⟨k, hk⟩).1 := by
    simp
  exact get_not_mem_take hk2 hknd (by rw [hgetmap]; exact hkeymem)

theorem warmup_failure_aborts_run_witness :
    ((demoStoreNC.results.map BenchmarkResult.result_id).Nodup ∧
      0 < (engineGroups demoStoreNC 7).length ∧
      warmup_model demoEnvWarmFail "model-a" = false) ∧
    (∀ (i : Nat) (r : BenchmarkResult), demoStoreNC.results[i]? = some r →
      r.model_name ∉ ((engineGroups demoStoreNC 7).take 0).map Prod.fst →
      (engineRun demoEnvWarmFail 7 noStop demoStoreNC).store.results[i]? = some r) ∧
    (∀ m b, Event.inferenceCall m b ∈ (engineRun demoEnvWarmFail 7 noStop demoStoreNC).events →
      b = false ∧ m ∈ ((engineGroups demoStoreNC 7).take 0).map Prod.fst) := by
  have h := warmup_failure_aborts_run demoEnvWarmFail 7 noStop demoStoreNC (by decide) 0
    (by decide) (by decide)
  exact ⟨⟨by decide, by decide, by decide⟩, h.1, h.2.1⟩

/-- A status-filtered result query never returns more rows than the
unfiltered per-run query. -/
theorem length_resultsForRunWithStatus_le (s : Store) (rid : Nat)
    (status : BenchmarkResultStatus) :
    (s.resultsForRunWithStatus rid status).length ≤ (s.resultsForRun rid).length := by
  unfold Store.resultsForRunWithStatus Store.resultsForRun
  induction s.results with
  | nil => simp
  | cons a l ih =>
    simp only [List.filter_cons]
    by_cases h1 : a.run_id = rid
    · by_cases h2 : a.status = status
      · rw [if_pos (by simp [h1, h2]), if_pos (by simp [h1])]
        simpa using ih
      · rw [if_neg (by simp [h2]), if_pos (by simp [h1])]
        exact Nat.le_succ_of_le ih
    · rw [if_neg (by simp [h1]), if_neg (by simp [h1])]
      exact ih

/-! ### The engine never touches the runs table -/

theorem execute_benchmark_task_runs (env : Env) (m : String) (task : BenchmarkResult)
    (st : EngineState) :
    (execute_benchmark_task env m task st).1.store.runs = st.store.runs := by
  obtain ⟨_, _, _, _, _, _, _, hstore⟩ := execute_benchmark_task_spec env m task st
  rcases hstore with h | ⟨u, _, _, h⟩
  · rw [h]
  · rw [h, update_runs]

theorem stage1_process_one_runs (env : Env) (rid : Nat) (m : String)
    (task : BenchmarkResult) (st : EngineState) :
    (stage1_process_one env rid m task st).store.runs = st.store.runs := by
  unfold stage1_process_one
  dsimp only
  have h2 := execute_benchmark_task_runs env m task { st with current_task_id := task.task_id }
  rcases hexec : execute_benchmark_task env m task { st with current_task_id := task.task_id }
    with ⟨st2, exc⟩
  rw [hexec] at h2
  try dsimp only
  cases exc with
  | none => exact h2
  | some e => exact (update_runs st2.store (failed_task_row task e)).trans h2

theorem judge_task_runs (env : Env) (jm : String) (task : BenchmarkResult)
    (st : EngineState) :
    (judge_task env jm task st).1.store.runs = st.store.runs := by
  obtain ⟨_, _, _, _, _, _, _, hstore⟩ := judge_task_spec env jm task st
  rcases hstore with h | ⟨u, _, _, h⟩
  · rw [h]
  · rw [h, update_runs]

theorem stage2_process_one_runs (env : Env) (rid : Nat) (jm : String)
    (task : BenchmarkResult) (st : EngineState) :
    (stage2_process_one env rid jm task st).store.runs = st.store.runs := by
  unfold stage2_process_one
  dsimp only
  have h2 := judge_task_runs env jm task { st with current_task_id := task.task_id }
  rcases hexec : judge_task env jm task { st with current_task_id := task.task_id }
    with ⟨st2, exc⟩
  rw [hexec] at h2
  try dsimp only
  cases exc with
  | none => exact h2
  | some e => exact (update_runs st2.store (judge_failed_row task e)).trans h2

theorem stage1TaskLoop_runs (env : Env) (rid : Nat) (sched : Nat → Bool) (m : String) :
    ∀ (tasks : List BenchmarkResult) (st : EngineState),
      (stage1TaskLoop env rid sched m tasks st).1.store.runs = st.store.runs := by
  intro tasks
  induction tasks with
  | nil => intro st; rfl
  | cons task rest ih =>
    intro st
    rw [stage1TaskLoop]
    simp only [EngineState.readStop]
    cases hsched : sched st.stop_reads with
    | true => rw [if_pos rfl]
    | false =>
      rw [if_neg (by simp)]
      rw [ih]
      exact stage1_process_one_runs env rid m task _

theorem stage2TaskLoop_runs (env : Env) (rid : Nat) (sched : Nat → Bool) (jm : String) :
    ∀ (tasks : List BenchmarkResult) (st : EngineState),
      (stage2TaskLoop env rid sched jm tasks st).1.store.runs = st.store.runs := by
  intro tasks
  induction tasks with
  | nil => intro st; rfl
  | cons task rest ih =>
    intro st
    rw [stage2TaskLoop]
    simp only [EngineState.readStop]
    cases hsched : sched st.stop_reads with
    | true => rw [if_pos rfl]
    | false =>
      rw [if_neg (by simp)]
      rw [ih]
      exact stage2_process_one_runs env rid jm task _

theorem stage1GroupLoop_runs (env : Env) (rid : Nat) (sched : Nat → Bool) :
    ∀ (gs : List (String × List BenchmarkResult)) (st : EngineState),
      (stage1GroupLoop env rid sched gs st).1.store.runs = st.store.runs := by
  intro gs
  induction gs with
  | nil => intro st; rfl
  | cons g rest ih =>
    obtain ⟨model_name, tasks⟩ := g
    intro st
    rw [stage1GroupLoop]
    simp only [EngineState.readStop]
    cases hsched : sched st.stop_reads with
    | true => rw [if_pos rfl]
    | false =>
      rw [if_neg (by simp)]
      cases hwarm : warmup_model env model_name with
      | false =>
        rw [if_pos (by simp [hwarm])]
        rfl
      | true =>
        rw [if_neg (by simp [hwarm])]
        have hT := stage1TaskLoop_runs env rid sched model_name tasks
          (update_progress rid
            { st with stop_reads := st.stop_reads + 1, current_model := model_name })
        rcases hloop : stage1TaskLoop env rid sched model_name tasks
            (update_progress rid
              { st with stop_reads := st.stop_reads + 1, current_model := model_name })
          with ⟨st2, cont⟩
        rw [hloop] at hT
        dsimp only at hT
        cases cont with
        | false =>
          rw [if_pos (by simp)]
          exact hT
        | true =>
          rw [if_neg (by simp)]
          rw [ih st2]
          exact hT

theorem execute_benchmark_for_tasks_runs (env : Env) (rid : Nat) (sched : Nat → Bool)
    (st : EngineState) :
    (execute_benchmark_for_tasks env rid sched st).1.store.runs = st.store.runs := by
  rw [execute_benchmark_for_tasks]
  simp only [EngineState.readStop]
  cases hsched : sched st.stop_reads with
  | true => rw [if_pos rfl]
  | false =>
    rw [if_neg (by simp)]
    try dsimp only
    cases hempty : (st.store.resultsForRunWithStatus rid
        BenchmarkResultStatus.NOT_COMPLETED).isEmpty with
    | true =>
      rw [if_pos rfl]
      rfl
    | false =>
      rw [if_neg (by simp)]
      exact stage1GroupLoop_runs env rid sched _ _

/-! ### Exact task counts for an unstopped run with healthy warm-ups -/

theorem stage1TaskLoop_count (env : Env) (rid : Nat) (sched : Nat → Bool) (m : String)
    (hsched : ∀ n, sched n = false) :
    ∀ (tasks : List BenchmarkResult) (st : EngineState),
      (stage1TaskLoop env rid sched m tasks st).2 = true ∧
      (stage1TaskLoop env rid sched m tasks st).1.completed_tasks =
        st.completed_tasks + tasks.length := by
  intro tasks
  induction tasks with
  | nil =>
    intro st
    exact ⟨rfl, by simp [stage1TaskLoop]⟩
  | cons task rest ih =>
    intro st
    rw [stage1TaskLoop]
    simp only [EngineState.readStop, hsched]
    rw [if_neg (by simp)]
    obtain ⟨hflag, hcomp⟩ :=
      ih (stage1_process_one env rid m task { st with stop_reads := st.stop_reads + 1 })
    obtain ⟨_, _, _, hone, _⟩ :=
      stage1_process_one_spec env rid m task { st with stop_reads := st.stop_reads + 1 }
    refine ⟨hflag, ?_⟩
    rw [hcomp, hone]
    try dsimp only
    simp only [List.length_cons]
    omega

theorem stage2TaskLoop_count (env : Env) (rid : Nat) (sched : Nat → Bool) (jm : String)
    (hsched : ∀ n, sched n = false) :
    ∀ (tasks : List BenchmarkResult) (st : EngineState),
      (stage2TaskLoop env rid sched jm tasks st).2 = true ∧
      (stage2TaskLoop env rid sched jm tasks st).1.completed_tasks =
        st.completed_tasks + tasks.length := by
  intro tasks
  induction tasks with
  | nil =>
    intro st
    exact ⟨rfl, by simp [stage2TaskLoop]⟩
  | cons task rest ih =>
    intro st
    rw [stage2TaskLoop]
    simp only [EngineState.readStop, hsched]
    rw [if_neg (by simp)]
    obtain ⟨hflag, hcomp⟩ :=
      ih (stage2_process_one env rid jm task { st with stop_reads := st.stop_reads + 1 })
    obtain ⟨_, _, _, hone, _⟩ :=
      stage2_process_one_spec env rid jm task { st with stop_reads := st.stop_reads + 1 }
    refine ⟨hflag, ?_⟩
    rw [hcomp, hone]
    try dsimp only
    simp only [List.length_cons]
    omega

theorem stage1GroupLoop_count (env : Env) (rid : Nat) (sched : Nat → Bool)
    (hsched : ∀ n, sched n = false) (hwarm : ∀ m, warmup_model env m = true) :
    ∀ (gs : List (String × List BenchmarkResult)) (st : EngineState),
      (stage1GroupLoop env rid sched gs st).2 = true ∧
      (stage1GroupLoop env rid sched gs st).1.completed_tasks =
        st.completed_tasks + (joinedTasks gs).length := by
  intro gs
  induction gs with
  | nil =>
    intro st
    exact ⟨rfl, by simp [stage1GroupLoop, joinedTasks]⟩
  | cons g rest ih =>
    obtain ⟨model_name, tasks⟩ := g
    intro st
    rw [stage1GroupLoop]
    simp only [EngineState.readStop, hsched]
    rw [if_neg (by simp)]
    rw [if_neg (by simp [hwarm])]
    obtain ⟨hflagT, hcompT⟩ := stage1TaskLoop_count env rid sched model_name hsched tasks
      (update_progress rid
        { st with stop_reads := st.stop_reads + 1, current_model := model_name })
    rcases hloop : stage1TaskLoop env rid sched model_name tasks
        (update_progress rid
          { st with stop_reads := st.stop_reads + 1, current_model := model_name })
      with ⟨st2, cont⟩
    rw [hloop] at hflagT hcompT
    dsimp only at hflagT hcompT
    subst hflagT
    rw [if_neg (by simp)]
    obtain ⟨hflagR, hcompR⟩ := ih st2
    refine ⟨hflagR, ?_⟩
    simp only [update_progress, EngineState.addEvent] at hcompT
    try dsimp only at hcompT
    have hlen : (joinedTasks ((model_name, tasks) :: rest)).length =
        tasks.length + (joinedTasks rest).length := by
      simp [joinedTasks]
    rw [hcompR, hcompT, hlen]
    omega

theorem execute_benchmark_for_tasks_count (env : Env) (rid : Nat) (sched : Nat → Bool)
    (st : EngineState)
    (hsched : ∀ n, sched n = false) (hwarm : ∀ m, warmup_model env m = true) :
    (execute_benchmark_for_tasks env rid sched st).1.completed_tasks =
      (st.store.resultsForRun rid).length ∧
    (execute_benchmark_for_tasks env rid sched st).1.total_tasks =
      (st.store.resultsForRun rid).length := by
  have hle := length_resultsForRunWithStatus_le st.store rid
    BenchmarkResultStatus.NOT_COMPLETED
  rw [execute_benchmark_for_tasks]
  simp only [EngineState.readStop, hsched]
  rw [if_neg (by simp)]
  try dsimp only
  cases hempty : (st.store.resultsForRunWithStatus rid
      BenchmarkResultStatus.NOT_COMPLETED).isEmpty with
  | true =>
    rw [if_pos rfl]
    have hlen0 : (st.store.resultsForRunWithStatus rid
        BenchmarkResultStatus.NOT_COMPLETED).length = 0 :=
      List.isEmpty_iff_length_eq_zero.mp hempty
    constructor
    · simp only [update_progress, EngineState.addEvent]
      try dsimp only
      omega
    · rfl
  | false =>
    rw [if_neg (by simp)]
    obtain ⟨hflag, hcomp⟩ := stage1GroupLoop_count env rid sched hsched hwarm
      (group_tasks_by_model (st.store.resultsForRunWithStatus rid
        BenchmarkResultStatus.NOT_COMPLETED))
      (update_progress rid
        { st with
            stage := Stage.BENCHMARKING
            stop_reads := st.stop_reads + 1
            total_tasks := (st.store.resultsForRun rid).length
            completed_tasks := (st.store.resultsForRun rid).length -
              (st.store.resultsForRunWithStatus rid
                BenchmarkResultStatus.NOT_COMPLETED).length })
    obtain ⟨_, htot, _⟩ := stage1GroupLoop_spec env rid sched
      (group_tasks_by_model (st.store.resultsForRunWithStatus rid
        BenchmarkResultStatus.NOT_COMPLETED))
      (update_progress rid
        { st with
            stage := Stage.BENCHMARKING
            stop_reads := st.stop_reads + 1
            total_tasks := (st.store.resultsForRun rid).length
            completed_tasks := (st.store.resultsForRun rid).length -
              (st.store.resultsForRunWithStatus rid
                BenchmarkResultStatus.NOT_COMPLETED).length })
    constructor
    · rw [hcomp]
      simp only [update_progress, EngineState.addEvent]
      try dsimp only
      rw [group_tasks_joinLen]
      omega
    · rw [htot]
      rfl

theorem execute_judging_for_tasks_count (env : Env) (rid : Nat) (sched : Nat → Bool)
    (st : EngineState) (run : BenchmarkRun)
    (hsched : ∀ n, sched n = false) (hwarm : ∀ m, warmup_model env m = true)
    (hrun : st.store.retrieve_benchmark_run rid = Except.ok run) :
    (execute_judging_for_tasks env rid sched st).1.completed_tasks =
      (st.store.resultsForRun rid).length ∧
    (execute_judging_for_tasks env rid sched st).1.total_tasks =
      (st.store.resultsForRun rid).length := by
  have hle := length_resultsForRunWithStatus_le st.store rid
    BenchmarkResultStatus.WAITING_FOR_JUDGE
  rw [execute_judging_for_tasks]
  rw [hrun]
  dsimp only
  cases hempty : (st.store.resultsForRunWithStatus rid
      BenchmarkResultStatus.WAITING_FOR_JUDGE).isEmpty with
  | true =>
    rw [if_pos rfl]
    have hlen0 : (st.store.resultsForRunWithStatus rid
        BenchmarkResultStatus.WAITING_FOR_JUDGE).length = 0 :=
      List.isEmpty_iff_length_eq_zero.mp hempty
    constructor
    · simp only [update_progress, EngineState.addEvent]
      try dsimp only
      omega
    · rfl
  | false =>
    rw [if_neg (by simp)]
    rw [if_neg (by simp [hwarm])]
    obtain ⟨hflag, hcomp⟩ := stage2TaskLoop_count env rid sched run.judge_model hsched
      (st.store.resultsForRunWithStatus rid BenchmarkResultStatus.WAITING_FOR_JUDGE)
      (update_progress rid
        { st with
            stage := Stage.JUDGING
            total_tasks := (st.store.resultsForRun rid).length
            completed_tasks := (st.store.resultsForRun rid).length -
              (st.store.resultsForRunWithStatus rid
                BenchmarkResultStatus.WAITING_FOR_JUDGE).length
            current_model := run.judge_model })
    obtain ⟨_, htot, _⟩ := stage2TaskLoop_spec env rid sched run.judge_model
      (st.store.resultsForRunWithStatus rid BenchmarkResultStatus.WAITING_FOR_JUDGE)
      (update_progress rid
        { st with
            stage := Stage.JUDGING
            total_tasks := (st.store.resultsForRun rid).length
            completed_tasks := (st.store.resultsForRun rid).length -
              (st.store.resultsForRunWithStatus rid
                BenchmarkResultStatus.WAITING_FOR_JUDGE).length
            current_model := run.judge_model })
    constructor
    · rw [hcomp]
      simp only [update_progress, EngineState.addEvent]
      try dsimp only
      omega
    · rw [htot]
      rfl

/-- After the two-stage body of an unstopped run with healthy warm-ups and
an existing run record, the completed counter equals the total counter. -/
theorem execute_benchmark_final_count (env : Env) (rid : Nat) (sched : Nat → Bool)
    (st : EngineState) (run : BenchmarkRun)
    (hsched : ∀ n, sched n = false) (hwarm : ∀ m, warmup_model env m = true)
    (hrun : st.store.retrieve_benchmark_run rid = Except.ok run) :
    (execute_benchmark env rid sched st).completed_tasks =
      (execute_benchmark env rid sched st).total_tasks := by
  rw [execute_benchmark]
  obtain ⟨hc1, ht1⟩ := execute_benchmark_for_tasks_count env rid sched st hsched hwarm
  have hruns1 := execute_benchmark_for_tasks_runs env rid sched st
  rcases h1 : execute_benchmark_for_tasks env rid sched st with ⟨st1, ok1⟩
  rw [h1] at hc1 ht1 hruns1
  dsimp only at hc1 ht1 hruns1 ⊢
  cases ok1 with
  | false =>
    rw [if_pos (by simp)]
    rw [hc1, ht1]
  | true =>
    rw [if_neg (by simp)]
    have hrun1 : (update_progress rid st1).store.retrieve_benchmark_run rid =
        Except.ok run := by
      show st1.store.retrieve_benchmark_run rid = Except.ok run
      unfold Store.retrieve_benchmark_run at hrun ⊢
      rw [hruns1]
      exact hrun
    obtain ⟨hc2, ht2⟩ := execute_judging_for_tasks_count env rid sched
      (update_progress rid st1) run hsched hwarm hrun1
    rcases h2 : execute_judging_for_tasks env rid sched (update_progress rid st1)
      with ⟨st2, ok2⟩
    rw [h2] at hc2 ht2
    dsimp only at hc2 ht2 ⊢
    cases ok2 with
    | false =>
      rw [if_pos (by simp)]
      rw [hc2, ht2]
    | true =>
      rw [if_neg (by simp)]
      simp only [update_progress, EngineState.addEvent]
      try dsimp only
      rw [hc2, ht2]

/-! ### The progress-message trace of a whole run -/

theorem progressMsgs_update_progress (rid : Nat) (st : EngineState) :
    progressMsgs (update_progress rid st).events =
      progressMsgs st.events ++
        [{ current_run_id := rid
           current_stage := st.stage
           current_model := st.current_model
           current_task := st.current_task_id
           tasks_total := st.total_tasks
           tasks_completed := st.completed_tasks }] := by
  simp [update_progress, EngineState.addEvent, progressMsgs_append, progressMsgs]

theorem progressMsgs_addEvent_statusChanged (st : EngineState) (b : Bool) :
    progressMsgs (st.addEvent (Event.statusChanged b)).events =
      progressMsgs st.events := by
  simp [EngineState.addEvent, progressMsgs_append, progressMsgs]

/-- The progress messages appended by the two-stage body split into a
benchmarking-stage block and a judging-stage block, each internally
non-decreasing in `tasks_completed`. -/
theorem execute_benchmark_msgs (env : Env) (rid : Nat) (sched : Nat → Bool)
    (st : EngineState) :
    ∃ msgsB msgsJ : List ReporterStatusMsg,
      progressMsgs (execute_benchmark env rid sched st).events =
        progressMsgs st.events ++ msgsB ++ msgsJ ∧
      (∀ msg ∈ msgsB, msg.current_stage = Stage.BENCHMARKING) ∧
      List.Sorted (· ≤ ·) (msgsB.map ReporterStatusMsg.tasks_completed) ∧
      (∀ msg ∈ msgsJ, msg.current_stage = Stage.JUDGING) ∧
      List.Sorted (· ≤ ·) (msgsJ.map ReporterStatusMsg.tasks_completed) := by
  rw [execute_benchmark]
  obtain ⟨hstage1, _, Δ1, hΔ1, hΔ1all, hΔ1sorted⟩ :=
    execute_benchmark_for_tasks_spec env rid sched st
  rcases h1 : execute_benchmark_for_tasks env rid sched st with ⟨st1, ok1⟩
  rw [h1] at hstage1 hΔ1 hΔ1all
  dsimp only at hstage1 hΔ1 hΔ1all ⊢
  have hmsgs1 : ∀ msg ∈ progressMsgs Δ1, msg.current_stage = Stage.BENCHMARKING ∧
      msg.tasks_completed ≤ st1.completed_tasks := by
    intro msg hmsg
    rcases hΔ1all _ (mem_progressMsgs.mp hmsg) with ⟨msg', hmsg', hstage, hbound⟩ | ⟨x, hex⟩
    · obtain rfl : msg = msg' := by injection hmsg'
      exact ⟨hstage, hbound⟩
    · simp at hex
  cases ok1 with
  | false =>
    rw [if_pos (by simp)]
    refine ⟨progressMsgs Δ1, [], ?_, fun msg hm => (hmsgs1 msg hm).1, hΔ1sorted,
      by simp, by simp⟩
    rw [hΔ1, progressMsgs_append]
    simp
  | true =>
    rw [if_neg (by simp)]
    obtain ⟨hstage2, _, Δ2, hΔ2, hΔ2all, hΔ2sorted⟩ :=
      execute_judging_for_tasks_spec env rid sched (update_progress rid st1)
    rcases h2 : execute_judging_for_tasks env rid sched (update_progress rid st1)
      with ⟨st2, ok2⟩
    rw [h2] at hstage2 hΔ2 hΔ2all
    dsimp only at hstage2 hΔ2 hΔ2all ⊢
    have hmsgs2 : ∀ msg ∈ progressMsgs Δ2, msg.current_stage = Stage.JUDGING ∧
        msg.tasks_completed ≤ st2.completed_tasks := by
      intro msg hmsg
      rcases hΔ2all _ (mem_progressMsgs.mp hmsg) with ⟨msg', hmsg', hstage, hbound⟩ | ⟨x, hex⟩
      · obtain rfl : msg = msg' := by injection hmsg'
        exact ⟨hstage, hbound⟩
      · simp at hex
    have hBfacts : (∀ msg ∈ progressMsgs Δ1 ++
          [({ current_run_id := rid
              current_stage := st1.stage
              current_model := st1.current_model
              current_task := st1.current_task_id
              tasks_total := st1.total_tasks
              tasks_completed := st1.completed_tasks } : ReporterStatusMsg)],
        msg.current_stage = Stage.BENCHMARKING) ∧
        List.Sorted (· ≤ ·) ((progressMsgs Δ1 ++
          [({ current_run_id := rid
              current_stage := st1.stage
              current_model := st1.current_model
              current_task := st1.current_task_id
              tasks_total := st1.total_tasks
              tasks_completed := st1.completed_tasks } : ReporterStatusMsg)]).map
          ReporterStatusMsg.tasks_completed) := by
      constructor
      · intro msg hm
        rcases List.mem_append.mp hm with hm | hm
        · exact (hmsgs1 msg hm).1
        · simp only [List.mem_singleton] at hm
          subst hm
          exact hstage1
      · rw [List.map_append, sorted_append_nat]
        refine ⟨hΔ1sorted, by simp, ?_⟩
        intro a ha b hb
        simp only [List.map_cons, List.map_nil, List.mem_singleton] at hb
        subst hb
        rw [List.mem_map] at ha
        obtain ⟨msg, hmsgmem, rfl⟩ := ha
        exact (hmsgs1 msg hmsgmem).2
    cases ok2 with
    | false =>
      rw [if_pos (by simp)]
      refine ⟨progressMsgs Δ1 ++
          [{ current_run_id := rid
             current_stage := st1.stage
             current_model := st1.current_model
             current_task := st1.current_task_id
             tasks_total := st1.total_tasks
             tasks_completed := st1.completed_tasks }],
        progressMsgs Δ2, ?_, hBfacts.1, hBfacts.2,
        fun msg hm => (hmsgs2 msg hm).1, hΔ2sorted⟩
      rw [hΔ2]
      simp only [update_progress, EngineState.addEvent]
      rw [hΔ1]
      simp [progressMsgs_append, progressMsgs]
    | true =>
      rw [if_neg (by simp)]
      refine ⟨progressMsgs Δ1 ++
          [{ current_run_id := rid
             current_stage := st1.stage
             current_model := st1.current_model
             current_task := st1.current_task_id
             tasks_total := st1.total_tasks
             tasks_completed := st1.completed_tasks }],
        progressMsgs Δ2 ++
          [{ current_run_id := rid
             current_stage := st2.stage
             current_model := st2.current_model
             current_task := st2.current_task_id
             tasks_total := st2.total_tasks
             tasks_completed := st2.completed_tasks }],
        ?_, hBfacts.1, hBfacts.2, ?_, ?_⟩
      · rw [progressMsgs_update_progress, hΔ2]
        simp only [update_progress, EngineState.addEvent]
        rw [hΔ1]
        simp [progressMsgs_append, progressMsgs]
      · intro msg hm
        rcases List.mem_append.mp hm with hm | hm
        · exact (hmsgs2 msg hm).1
        · simp only [List.mem_singleton] at hm
          subst hm
          exact hstage2
      · rw [List.map_append, sorted_append_nat]
        refine ⟨hΔ2sorted, by simp, ?_⟩
        intro a ha b hb
        simp only [List.map_cons, List.map_nil, List.mem_singleton] at hb
        subst hb
        rw [List.mem_map] at ha
        obtain ⟨msg, hmsgmem, rfl⟩ := ha
        exact (hmsgs2 msg hmsgmem).2

/-- The progress messages of a whole engine invocation: the construction
snapshot, then the benchmarking block, then the judging block, then the
final `finally`-block snapshot carrying the body's counters. -/
theorem engineRun_msgs (env : Env) (rid : Nat) (sched : Nat → Bool) (store : Store) :
    ∃ msgsB msgsJ : List ReporterStatusMsg,
      progressMsgs (engineRun env rid sched store).events =
        { current_run_id := rid
          current_stage := Stage.INITIALIZING
          current_model := ""
          current_task := ""
          tasks_total := 0
          tasks_completed := 0 } ::
        (msgsB ++ msgsJ ++
          [{ current_run_id := rid
             current_stage := Stage.FINISHED
             current_model := ""
             current_task := ""
             tasks_total := (execute_benchmark env rid sched
               ((update_progress rid (initialEngineState store)).addEvent
                 (Event.statusChanged true))).total_tasks
             tasks_completed := (execute_benchmark env rid sched
               ((update_progress rid (initialEngineState store)).addEvent
                 (Event.statusChanged true))).completed_tasks }]) ∧
      (∀ msg ∈ msgsB, msg.current_stage = Stage.BENCHMARKING) ∧
      List.Sorted (· ≤ ·) (msgsB.map ReporterStatusMsg.tasks_completed) ∧
      (∀ msg ∈ msgsJ, msg.current_stage = Stage.JUDGING) ∧
      List.Sorted (· ≤ ·) (msgsJ.map ReporterStatusMsg.tasks_completed) := by
  obtain ⟨msgsB, msgsJ, hdec, hB, hBs, hJ, hJs⟩ := execute_benchmark_msgs env rid sched
    ((update_progress rid (initialEngineState store)).addEvent (Event.statusChanged true))
  have hp0 : progressMsgs ((update_progress rid (initialEngineState store)).addEvent
      (Event.statusChanged true)).events =
      [{ current_run_id := rid
         current_stage := Stage.INITIALIZING
         current_model := ""
         current_task := ""
         tasks_total := 0
         tasks_completed := 0 }] := rfl
  rw [hp0] at hdec
  refine ⟨msgsB, msgsJ, ?_, hB, hBs, hJ, hJs⟩
  rw [engineRun]
  dsimp only
  rw [progressMsgs_update_progress, progressMsgs_addEvent_statusChanged]
  dsimp only
  rw [hdec]
  simp [EngineState.addEvent]

theorem cons_append_concat {α : Type} (a c : α) (B J : List α) :
    a :: (B ++ J ++ [c]) = (a :: (B ++ J)) ++ [c] := by
  simp

/-- C3 (amended): within each stage label the emitted `tasks_completed`
values are non-decreasing (the counter is re-based at the start of the
judging stage, so the sequence is not non-decreasing across the whole run);
and when the run executes with no stop request, all warm-ups succeeding and
an existing run record, the final progress event reports
`tasks_completed = tasks_total`. -/
theorem progress_per_stage_monotone (env : Env) (rid : Nat) (sched : Nat → Bool)
    (store : Store) :
    (∀ s : Stage, List.Sorted (· ≤ ·)
      (((progressMsgs (engineRun env rid sched store).events).filter
        (fun msg => decide (msg.current_stage = s))).map
        ReporterStatusMsg.tasks_completed)) ∧
    (∀ run : BenchmarkRun, (∀ n, sched n = false) →
      (∀ m, warmup_model env m = true) →
      store.retrieve_benchmark_run rid = Except.ok run →
      ∃ msg, (progressMsgs (engineRun env rid sched store).events).getLast? = some msg ∧
        msg.tasks_completed = msg.tasks_total) := by
  obtain ⟨msgsB, msgsJ, hdec, hB, hBs, hJ, hJs⟩ := engineRun_msgs env rid sched store
  have hBnil : ∀ s, s ≠ Stage.BENCHMARKING →
      msgsB.filter (fun msg => decide (msg.current_stage = s)) = [] := by
    intro s hs
    refine List.filter_eq_nil_iff.mpr (fun m hm => ?_)
    simp only [decide_eq_true_eq, hB m hm]
    exact fun h => hs h.symm
  have hJnil : ∀ s, s ≠ Stage.JUDGING →
      msgsJ.filter (fun msg => decide (msg.current_stage = s)) = [] := by
    intro s hs
    refine List.filter_eq_nil_iff.mpr (fun m hm => ?_)
    simp only [decide_eq_true_eq, hJ m hm]
    exact fun h => hs h.symm
  have hBself : msgsB.filter
      (fun msg => decide (msg.current_stage = Stage.BENCHMARKING)) = msgsB :=
    List.filter_eq_self.mpr (fun m hm => by simp [hB m hm])
  have hJself : msgsJ.filter
      (fun msg => decide (msg.current_stage = Stage.JUDGING)) = msgsJ :=
    List.filter_eq_self.mpr (fun m hm => by simp [hJ m hm])
  constructor
  · intro s
    rw [hdec]
    cases s with
    | INITIALIZING =>
      simp only [List.filter_cons, List.filter_append,
        hBnil Stage.INITIALIZING (by decide), hJnil Stage.INITIALIZING (by decide)]
      simp
    | BENCHMARKING =>
      simp only [List.filter_cons, List.filter_append, hBself,
        hJnil Stage.BENCHMARKING (by decide)]
      simpa using hBs
    | JUDGING =>
      simp only [List.filter_cons, List.filter_append, hJself,
        hBnil Stage.JUDGING (by decide)]
      simpa using hJs
    | FINISHED =>
      simp only [List.filter_cons, List.filter_append,
        hBnil Stage.FINISHED (by decide), hJnil Stage.FINISHED (by decide)]
      simp
    | FAILED =>
      simp only [List.filter_cons, List.filter_append,
        hBnil Stage.FAILED (by decide), hJnil Stage.FAILED (by decide)]
      simp
  · intro run hsched hwarm hrun
    have hcount := execute_benchmark_final_count env rid sched
      ((update_progress rid (initialEngineState store)).addEvent (Event.statusChanged true))
      run hsched hwarm hrun
    refine ⟨{ current_run_id := rid
              current_stage := Stage.FINISHED
              current_model := ""
              current_task := ""
              tasks_total := (execute_benchmark env rid sched
                ((update_progress rid (initialEngineState store)).addEvent
                  (Event.statusChanged true))).total_tasks
              tasks_completed := (execute_benchmark env rid sched
                ((update_progress rid (initialEngineState store)).addEvent
                  (Event.statusChanged true))).completed_tasks }, ?_, ?_⟩
    · rw [hdec, cons_append_concat, List.getLast?_concat]
    · exact hcount

theorem progress_per_stage_monotone_witness :
    ((∀ n, noStop n = false) ∧ (∀ m, warmup_model demoEnv m = true) ∧
      demoStoreNC.retrieve_benchmark_run 7 = Except.ok demoRun) ∧
    (∀ s : Stage, List.Sorted (· ≤ ·)
      (((progressMsgs (engineRun demoEnv 7 noStop demoStoreNC).events).filter
        (fun msg => decide (msg.current_stage = s))).map
        ReporterStatusMsg.tasks_completed)) ∧
    (∃ msg, (progressMsgs (engineRun demoEnv 7 noStop demoStoreNC).events).getLast? =
        some msg ∧ msg.tasks_completed = msg.tasks_total) := by
  have h := progress_per_stage_monotone demoEnv 7 noStop demoStoreNC
  exact ⟨⟨fun n => rfl, fun m => rfl, by decide⟩, h.1,
    h.2 demoRun (fun n => rfl) (fun m => rfl) (by decide)⟩

end OllamaBench
